import Mathlib

/-!
Verification of the goloader relocation and runtime-integration engine
(dymcode.go and its module glue).  The Go code is shallowly embedded:
byte blobs are lists of naturals below 256, machine words are naturals
reduced mod 2^32 / 2^64 where the code converts, Go `int` arithmetic is
exact `Int` arithmetic (addresses stay far below 2^63), stateful
procedures are explicit state transformers, and writes into the
executable region additionally record their (start, length) extent so
that bounds properties can be stated.
-/

namespace Goloader

/-! ### Small helpers: association-list maps, little-endian bytes, Go bit ops -/

/-- Lookup in an association list modelling a Go map; inserts are modelled
by prepending, so first-match lookup realizes overwrite semantics. -/
def assocLookup {α : Type} (l : List (String × α)) (k : String) : Option α :=
  match l with
  | [] => none
  | (a, b) :: rest => if a = k then some b else assocLookup rest k

/-- Go map read with the type's zero value as default. -/
def mapGetD {α : Type} (l : List (String × α)) (k : String) (d : α) : α :=
  (assocLookup l k).getD d

/-- Little-endian byte list (n bytes) of a natural number, as Go's
binary.LittleEndian.PutUintXX produces. -/
def natBytes (v : Nat) (n : Nat) : List Nat :=
  (List.range n).map fun i => (v >>> (8 * i)) % 256

/-- Little-endian 32-bit read, as binary.LittleEndian.Uint32. -/
def readLE32 (l : List Nat) (off : Nat) : Nat :=
  l.getD off 0 + (l.getD (off + 1) 0) <<< 8 + (l.getD (off + 2) 0) <<< 16 +
    (l.getD (off + 3) 0) <<< 24

/-- Write a byte list into a buffer at an offset; `List.set` ignores
out-of-range indices, matching Go `copy`'s truncation at the
destination's end. -/
def listWrite (l : List Nat) (off : Nat) (bs : List Nat) : List Nat :=
  match bs with
  | [] => l
  | b :: rest => listWrite (l.set off b) (off + 1) rest

/-- Go's uint32(x) conversion of a (possibly negative) int: two's
complement reduction mod 2^32. -/
def uint32of (x : Int) : Nat := (x % (2 : Int) ^ 32).toNat

/-- Go's uint64(x) conversion of a (possibly negative) int. -/
def uint64of (x : Int) : Nat := (x % (2 : Int) ^ 64).toNat

/-- Go's `x & mask` on int with a small nonnegative mask (two's
complement bitwise and over 64-bit ints), returned as a natural. -/
def goAndN (x : Int) (m : Nat) : Nat := (x % (2 : Int) ^ 64).toNat &&& m

/-- The same bitwise and, kept as an int (the result is nonnegative). -/
def goAnd (x : Int) (m : Nat) : Int := (goAndN x m : Int)

/-- Go's arithmetic right shift `x >> k` on int: floor division by 2^k. -/
def goShr (x : Int) (k : Nat) : Int := Int.fdiv x ((2 : Int) ^ k)

/-! ### Relocation types and symbol kinds (objabi constants) -/

def R_TLS_LE : Nat := 16
def R_CALL : Nat := 8
def R_CALLARM : Nat := 9
def R_CALLARM64 : Nat := 10
def R_CALLIND : Nat := 11
def R_PCREL : Nat := 15
def R_ADDR : Nat := 1
def R_ADDRARM64 : Nat := 3
def R_ADDROFF : Nat := 5
def R_WEAKADDROFF : Nat := 6
def R_METHODOFF : Nat := 24

def Sxxx : Nat := 0
def STEXT : Nat := 1
def SRODATA : Nat := 2

/-- Pointer width of the modelled 64-bit platform (PtrSize in the source
is 4 << (^uintptr(0) >> 63)). -/
def PtrSize : Nat := 8

/-! ### The stub byte sequences and opcode bytes from the source. -/

def mov32bit : List Nat := [0x00, 0x00, 0x80, 0xD2, 0x00, 0x00, 0xA0, 0xF2]
def armcode : List Nat := [0x04, 0xF0, 0x1F, 0xE5, 0x00, 0x00, 0x00, 0x00]
def arm64code : List Nat :=
  [0x43, 0x00, 0x00, 0x58, 0x60, 0x00, 0x1F, 0xD6,
   0x00, 0x00, 0x00, 0x00, 0x00, 0x00, 0x00, 0x00]
def x86code : List Nat :=
  [0xff, 0x25, 0x00, 0x00, 0x00, 0x00, 0x00,
   0x00, 0x00, 0x00, 0x00, 0x00, 0x00, 0x00]
def movcode : Nat := 0x8b
def leacode : Nat := 0x8d
def cmplcode : Nat := 0x83
def jmpcode : Nat := 0xe9

/-- Modelled from the spec: the well-known name of the synthesized
thread-local base-slot symbol (TLSNAME is declared outside dymcode.go);
its concrete spelling is irrelevant, only equality with itself is used. -/
def TLSNAME : String := "(TLS)"

/-- Modelled from the spec: the well-known name of the synthesized
indirect-call-stub symbol (R_CALLIND_NAME is declared outside
dymcode.go). -/
def R_CALLIND_NAME : String := "R_CALLIND"

/-! ### Data model -/

/-- Reloc from the source: a relocation site, `offset` already rebased to
the owning blob (re.Offset + rsym.Offset). `typ` is the Go field Type. -/
structure Reloc where
  offset : Nat := 0
  symOff : Nat := 0
  size : Nat := 0
  typ : Nat := 0
  add : Int := 0
deriving DecidableEq, Repr

/-- SymData from the source: one interned symbol record. `offset` is -1
for an unresolved external symbol, else a byte offset into the owning
blob. -/
structure SymData where
  name : String := ""
  kind : Nat := 0
  offset : Int := 0
  reloc : List Reloc := []
deriving DecidableEq, Repr

/-- Modelled from the spec: the function-metadata side table built by
readFuncData (declared outside dymcode.go).  Per §4.5 every ingested
function is recorded in the image's function table in original
(first-discovery) order; addFuncTab later reads each recorded entry as
an index into the symbol table (`seg.symAddrs[int(code.Mod.ftab[i].entry)]`),
so the model records the interned symbol index. -/
structure ModData where
  ftab : List Nat := []
deriving DecidableEq, Repr

/-- CodeReloc from the source: the merged build artifact. -/
structure CodeReloc where
  code : List Nat := []
  data : List Nat := []
  mod : ModData := {}
  syms : List SymData := []
deriving DecidableEq, Repr

/-- A compilation unit's symbol as delivered by the object parser
(goobj.Sym together with its payload bytes). -/
structure ObjReloc where
  offset : Nat := 0
  symName : String := ""
  size : Nat := 0
  typ : Nat := 0
  add : Int := 0
deriving DecidableEq, Repr

structure ObjSym where
  name : String := ""
  kind : Nat := 0
  data : List Nat := []
  reloc : List ObjReloc := []
deriving DecidableEq, Repr

/-- Builder state threaded through relocSym: the CodeReloc being grown
plus the name-to-index interning map (symMap). -/
structure BState where
  reloc : CodeReloc := {}
  symMap : List (String × Nat) := []
deriving DecidableEq, Repr

/-- addSym from the source: intern `rsym` under its name.  A fresh name
is appended at index len(symArray); a known name's record is overwritten
in place and the existing index returned. -/
def addSym (st : BState) (rsym : SymData) : BState × Nat :=
  match assocLookup st.symMap rsym.name with
  | none =>
    let offset := st.reloc.syms.length
    ({ st with
        reloc := { st.reloc with syms := st.reloc.syms ++ [rsym] },
        symMap := (rsym.name, offset) :: st.symMap }, offset)
  | some offset =>
    ({ st with reloc := { st.reloc with syms := st.reloc.syms.set offset rsym } }, offset)

/-- Modelled from the spec: readFuncData (declared outside dymcode.go)
records the just-ingested text symbol in the image's function table in
discovery order (§4.5); the gcObjs/fileTabOffsetMap bookkeeping it also
does feeds only the pclntable serialization, outside this model. -/
def readFuncData (mod : ModData) (curSymOffset : Nat) : ModData :=
  { mod with ftab := mod.ftab ++ [curSymOffset] }

/-- strings.TrimLeft: drop leading characters belonging to the cutset. -/
def trimLeftCutset (s : String) (cutset : List Char) : String :=
  String.mk (s.toList.dropWhile (fun c => c ∈ cutset))

/-- strings.Trim: drop characters of the cutset from both ends. -/
def trimCutset (s : String) (cutset : List Char) : String :=
  String.mk (((s.toList.dropWhile (fun c => c ∈ cutset)).reverse.dropWhile
      (fun c => c ∈ cutset)).reverse)

/-- The byte content materialized for an import-path symbol: the name
with the "type..importpath." cutset trimmed from the left, dots trimmed
from both ends, UTF-8 encoded, with a trailing NUL. -/
def importPathBytes (name : String) : List Nat :=
  let path := trimLeftCutset name "type..importpath.".toList
  let path := trimCutset path ['.']
  (path.toUTF8.toList.map (fun b => (b.toNat : Nat))) ++ [0]

/-- The record synthesized for an external relocation target (the
else-branch of relocSym's reloc loop): thread-local and indirect-call
markers are renamed to their well-known names, import-path strings are
materialized into the data blob, anything else is left at offset -1.
Returns the updated state together with the interned index. -/
def externSym (st : BState) (re : ObjReloc) : BState × Nat :=
  let exSym : SymData := { name := re.symName, offset := -1 }
  let exSym := if re.typ = R_TLS_LE then
      { exSym with name := TLSNAME, offset := (re.offset : Int) } else exSym
  let exSym := if re.typ = R_CALLIND then
      { exSym with name := R_CALLIND_NAME, offset := 0 } else exSym
  if exSym.name.startsWith "type..importpath." then
    let pathb := importPathBytes exSym.name
    let exSym := { exSym with offset := (st.reloc.data.length : Int) }
    let st := { st with reloc := { st.reloc with data := st.reloc.data ++ pathb } }
    addSym st exSym
  else
    addSym st exSym

mutual

/-- relocSym from the source: depth-first interning of a symbol and its
relocation closure.  The Go code terminates through memoization; the
model adds a fuel argument that only the not-yet-interned branch
consumes, so the memoized early return is fuel-independent.
relocLoop below is the inlined reloc-range loop. -/
def relocSym (allSyms : List (String × ObjSym)) :
    Nat → BState → ObjSym → BState × Nat
  | 0, st, curSym =>
    (match assocLookup st.symMap curSym.name with
     | some curSymOffset => (st, curSymOffset)
     | none => (st, 0))
  | fuel' + 1, st, curSym =>
    match assocLookup st.symMap curSym.name with
    | some curSymOffset => (st, curSymOffset)
    | none =>
      let rsym : SymData := { name := curSym.name, kind := curSym.kind }
      let (st1, curSymOffset) := addSym st rsym
      let (st2, rsymOffset) :=
        if curSym.kind = STEXT then
          let off := st1.reloc.code.length
          ({ st1 with reloc := { st1.reloc with
              code := st1.reloc.code ++ curSym.data,
              mod := readFuncData st1.reloc.mod curSymOffset } }, off)
        else
          let off := st1.reloc.data.length
          ({ st1 with reloc := { st1.reloc with
              data := st1.reloc.data ++ curSym.data } }, off)
      let rsym := { rsym with offset := (rsymOffset : Int) }
      let (st3, _) := addSym st2 rsym
      let (st4, rlist) := relocLoop allSyms fuel' st3 rsymOffset curSym.reloc
      let st5 := { st4 with reloc := { st4.reloc with
          syms := st4.reloc.syms.set curSymOffset
            { (st4.reloc.syms.getD curSymOffset {}) with reloc := rlist } } }
      (st5, curSymOffset)

/-- The inlined reloc-range loop of relocSym: interns each relocation
target (recursing for in-image targets, synthesizing for external
ones) and collects the rebased Reloc records.  Fuel decreases once per
processed relocation as well; with enough fuel (any amount at least
the total size of the dependency closure) the behaviour is the Go
loop's, and the memoized early return of relocSym is fuel-independent
either way. -/
def relocLoop (allSyms : List (String × ObjSym)) (fuel : Nat) (st : BState)
    (rsymOffset : Nat) (res : List ObjReloc) : BState × List Reloc :=
  match fuel, res with
  | _, [] => (st, [])
  | 0, _ :: _ => (st, [])
  | fuel' + 1, re :: rest =>
    let (st1, symOff) :=
      match assocLookup allSyms re.symName with
      | some s => relocSym allSyms fuel' st s
      | none => externSym st re
    let (st2, rlist) := relocLoop allSyms fuel' st1 rsymOffset rest
    (st2, { offset := re.offset + rsymOffset, symOff := symOff,
            typ := re.typ, size := re.size, add := re.add } :: rlist)

end

/-! ### Load-time state: segment, code module, pipeline state -/

/-- segment from the source.  `codeByte` is the mmapped
executable+writable region (length maxCodeLen); `cbWrites` records the
(start, intended length) extent of every write aimed at that region,
and `tlsRegs` records the offsets handed to the RegTLS thread-local
registration path — both are observation fields of the shallow
embedding, not extra behaviour. -/
structure Seg where
  codeBase : Int := 0
  dataBase : Int := 0
  codeLen : Nat := 0
  maxCodeLen : Nat := 0
  offset : Nat := 0
  symAddrs : List Int := []
  itabMap : List (String × Nat) := []
  funcType : List (String × Nat) := []
  typeSymPtr : List (String × Int) := []
  err : List String := []
  codeByte : List Nat := []
  cbWrites : List (Nat × Nat) := []
  tlsRegs : List Int := []
deriving DecidableEq, Repr

/-- itabSym from the source (the `_type` field is spelled typ). -/
structure ItabS where
  ptr : Int := 0
  inter : Int := 0
  typ : Int := 0
deriving DecidableEq, Repr

/-- itabReloc from the source: a deferred interface-table patch site. -/
structure ItabR where
  locOff : Nat := 0
  symOff : Nat := 0
  size : Nat := 0
  locType : Nat := 0
  add : Int := 0
deriving DecidableEq, Repr

/-- functab from the module glue: one function-table entry. -/
structure Functab where
  entry : Int := 0
  funcoff : Nat := 0
deriving DecidableEq, Repr

/-- The published moduledata, restricted to the fields the claims
reach: the function table and its two pc bounds.  The pclntable byte
serialization of addFuncTab is raw-memory metadata outside the model. -/
structure Moduled where
  ftab : List Functab := []
  minpc : Int := 0
  maxpc : Int := 0
deriving DecidableEq, Repr

/-- CodeModule from the source (Syms, itabSyms, itabs, Module,
CodeByte). -/
structure CModule where
  syms : List (String × Int) := []
  itabSyms : List ItabS := []
  itabs : List ItabR := []
  modul : Option Moduled := none
  codeByte : List Nat := []
deriving DecidableEq, Repr

/-- The full mutable state of one Load: the two blobs being patched in
place (code.Code / code.Data), the segment, and the CodeModule being
built. -/
structure LState where
  codeB : List Nat := []
  dataB : List Nat := []
  seg : Seg := {}
  cm : CModule := {}
deriving DecidableEq, Repr

/-- Append a diagnostic line to seg.err (strWrite on the error buffer). -/
def pushErr (st : LState) (msg : String) : LState :=
  { st with seg := { st.seg with err := st.seg.err ++ [msg] } }

/-- Write bytes into code.Code (isText) or code.Data, the blob the
relocByte alias of the source points at. -/
def setRelocByte (st : LState) (isText : Bool) (off : Nat) (bs : List Nat) : LState :=
  if isText then { st with codeB := listWrite st.codeB off bs }
  else { st with dataB := listWrite st.dataB off bs }

/-- Read one byte of the relocByte alias (rb[i] in the source). -/
def relocByteGet (st : LState) (isText : Bool) (off : Nat) : Nat :=
  if isText then st.codeB.getD off 0 else st.dataB.getD off 0

/-- Write bytes into the mmapped region seg.codeByte, recording the
intended extent in cbWrites.  `listWrite` truncates at the region's
end exactly as Go `copy` does; the recorded extent is the length the
source asks to write. -/
def emitCodeByte (st : LState) (off : Nat) (bs : List Nat) : LState :=
  { st with seg := { st.seg with
      codeByte := listWrite st.seg.codeByte off bs,
      cbWrites := st.seg.cbWrites ++ [(off, bs.length)] } }

/-- Advance the trampoline bump offset. -/
def bumpOffset (st : LState) (n : Nat) : LState :=
  { st with seg := { st.seg with offset := st.seg.offset + n } }

/-- Modelled from the spec: RegTLS (declared outside dymcode.go) routes
a thread-local slot through the dedicated thread-local registration
path (§4.2); the model records the registered offset. -/
def regTLS (st : LState) (off : Int) : LState :=
  { st with seg := { st.seg with tlsRegs := st.seg.tlsRegs ++ [off] } }

/-- seg.symAddrs[i] = v. -/
def setSymAddr (st : LState) (i : Nat) (v : Int) : LState :=
  { st with seg := { st.seg with symAddrs := st.seg.symAddrs.set i v } }

/-! ### relocADRP -/

/-- The signed page delta of relocADRP: pcPage := pc - pc&0xfff,
symPage := symAddr - symAddr&0xfff, pageOff := symPage - pcPage. -/
def pageOffOf (pc symAddr : Int) : Int :=
  (symAddr - goAnd symAddr 0xfff) - (pc - goAnd pc 0xfff)

/-- The overflow test of relocADRP on the page delta:
pageOff > 0x7FFFFFFF || pageOff < -0x80000000. -/
def adrpOverflow (pageOff : Int) : Bool :=
  pageOff > 0x7FFFFFFF || pageOff < -0x80000000

/-- relocADRP's word-level core: given the adrp and add instruction
words read at the site, the pc and the resolved symbol address, return
the two words written back.  The overflow branch materializes the
constant with the mov32bit pair; the in-range branch ors the split page
delta into the adrp word and the low 12 bits into the add word. -/
def relocADRPwords (adrp addw : Nat) (pc symAddr : Int) : Nat × Nat :=
  let pageOff := pageOffOf pc symAddr
  if adrpOverflow pageOff then
    let movlow := readLE32 mov32bit 0
    let movhigh := readLE32 mov32bit 4
    let symAddrUint32 := uint32of symAddr
    (((adrp &&& 0x1f) ||| movlow) ||| ((symAddrUint32 &&& 0xffff) <<< 5),
     ((adrp &&& 0x1f) ||| movhigh) ||| (((symAddrUint32 &&& 0xffff0000) >>> 16) <<< 5))
  else
    let pageAnd := ((goAndN (goShr pageOff 12) 3) <<< 29) |||
      ((goAndN (goShr pageOff 15) 0x7ffff) <<< 5)
    let lowOff := (goAndN symAddr 0xfff) <<< 10
    (adrp ||| pageAnd, addw ||| lowOff)

/-- relocADRP applied to the code blob at `off` (the mCode slice of the
source): read the two instruction words, rewrite them, write them back. -/
def relocADRPblob (blob : List Nat) (off : Nat) (pc symAddr : Int) : List Nat :=
  let w := relocADRPwords (readLE32 blob off) (readLE32 blob (off + 4)) pc symAddr
  listWrite blob off (natBytes w.fst 4 ++ natBytes w.snd 4)

/-! ### addSymAddrs (the address resolver) -/

/-- The body of addSymAddrs' loop for symbol `sym` at index `i`:
external symbols resolve against the host map or are marked -1 with a
diagnostic; the thread-local symbol goes through RegTLS only; text
symbols get codeBase+offset and are published; unresolved go.itab
names are deferred; everything else gets dataBase+offset, with
type.func and type. names additionally indexed. -/
def addSymAddrsStep (code : CodeReloc) (symPtr : List (String × Int))
    (i : Nat) (sym : SymData) (st : LState) : LState :=
  if sym.offset = -1 then
    match assocLookup symPtr sym.name with
    | some ptr => setSymAddr st i ptr
    | none => pushErr (setSymAddr st i (-1)) ("unresolve external: " ++ sym.name)
  else if sym.name = TLSNAME then
    regTLS st sym.offset
  else if sym.kind = STEXT then
    let addr := (code.syms.getD i {}).offset + st.seg.codeBase
    let st1 := setSymAddr st i addr
    { st1 with cm := { st1.cm with syms := (sym.name, addr) :: st1.cm.syms } }
  else if sym.name.startsWith "go.itab" then
    match assocLookup symPtr sym.name with
    | some ptr => setSymAddr st i ptr
    | none => { st with seg := { st.seg with itabMap := (sym.name, i) :: st.seg.itabMap } }
  else
    let st1 := setSymAddr st i ((code.syms.getD i {}).offset + st.seg.dataBase)
    let st2 := if sym.name.startsWith "type.func" then
        { st1 with seg := { st1.seg with funcType := (sym.name, i) :: st1.seg.funcType } }
      else st1
    if sym.name.startsWith "type." then
      match assocLookup symPtr sym.name with
      | some ptr => setSymAddr st2 i ptr
      | none =>
        { st2 with seg := { st2.seg with
            typeSymPtr := (sym.name, st2.seg.symAddrs.getD i 0) :: st2.seg.typeSymPtr } }
    else st2

/-- The indexed loop of addSymAddrs. -/
def addSymAddrsLoop (code : CodeReloc) (symPtr : List (String × Int)) :
    List SymData → Nat → LState → LState
  | [], _, st => st
  | s :: rest, i, st =>
    addSymAddrsLoop code symPtr rest (i + 1) (addSymAddrsStep code symPtr i s st)

/-- addSymAddrs from the source: resolve every interned symbol to a
concrete address (or -1 / deferred / thread-local). -/
def addSymAddrs (code : CodeReloc) (symPtr : List (String × Int)) (st : LState) : LState :=
  addSymAddrsLoop code symPtr code.syms 0 st

/-! ### addItab -/

/-- The body of addItab for one deferred interface-table name: read the
interface and concrete-type addresses from the record's first two
relocation targets; if both resolved, repoint the itabMap entry at the
new itabSyms slot and append the pair.  The recursive
addIFaceSubFuncType walk into the host runtime's interface metadata is
an external capability (§4.3) outside this model. -/
def addItabStep (code : CodeReloc) (entry : String × Nat) (st : LState) : LState :=
  let curSym := code.syms.getD entry.snd {}
  let inter := st.seg.symAddrs.getD (curSym.reloc.getD 0 {}).symOff 0
  let typ := st.seg.symAddrs.getD (curSym.reloc.getD 1 {}).symOff 0
  if inter = -1 ∨ typ = -1 then st
  else
    { st with
      seg := { st.seg with itabMap := (entry.fst, st.cm.itabSyms.length) :: st.seg.itabMap },
      cm := { st.cm with itabSyms := st.cm.itabSyms ++ [{ inter := inter, typ := typ }] } }

/-- addItab from the source.  Go iterates seg.itabMap in unspecified map
order; the model iterates the association list, which is one admissible
order and irrelevant to the published entries' contents. -/
def addItab (code : CodeReloc) (st : LState) : LState :=
  st.seg.itabMap.foldl (fun s e => addItabStep code e s) st

/-! ### relocate (the relocation engine) -/

/-- The PC-relative displacement of the R_CALL / R_PCREL case:
symAddrs[target] - (addrBase + site + size) + addend, with addrBase the
code base for text symbols and the data base otherwise. -/
def pcRelDisp (symAddrs : List Int) (cb db : Int) (curKind : Nat) (loc : Reloc) : Int :=
  let addrBase := if curKind = STEXT then cb else db
  symAddrs.getD loc.symOff 0 - (addrBase + loc.offset + loc.size) + loc.add

/-- The overflow test of the R_CALL / R_PCREL case, verbatim from the
source: offset > 0x7fffffff || offset < -0x8000000 (note the
seven-zero lower constant). -/
def overflowPcRel (d : Int) : Bool := d > 0x7fffffff || d < -0x8000000

/-- The addend munging of the R_CALLARM case (loc.Add & 0xffffff, then
capped at 256 / biased by 2); R_CALLARM64 keeps the addend. -/
def armAdd (loc : Reloc) : Int :=
  if loc.typ = R_CALLARM then
    let a := goAnd loc.add 0xffffff
    if a > 256 then 0 else a + 2
  else loc.add

/-- The 8-byte pc bias of the R_CALLARM case. -/
def armPcOff (loc : Reloc) : Nat := if loc.typ = R_CALLARM then 8 else 0

/-- The word displacement of the branch cases:
(symAddrs[target] - (codeBase + site + pcOff) + add) / 4 with Go's
truncating integer division. -/
def armDisp (symAddrs : List Int) (cb : Int) (loc : Reloc) : Int :=
  Int.tdiv (symAddrs.getD loc.symOff 0 - (cb + loc.offset + armPcOff loc) + armAdd loc) 4

/-- The overflow test of the branch cases:
offset > 0x7FFFFF || offset < -0x800000. -/
def overflowArm (d : Int) : Bool := d > 0x7FFFFF || d < -0x800000

/-- The R_CALL / R_PCREL case of relocate: write the displacement
directly when the overflow test passes, otherwise emit the x86
indirect-jump stub (for calls) or the absolute-load rewrite (for
recognized data-reference opcodes) into the trampoline area. -/
def relocCallPcRel (sym : SymData) (curKind : Nat) (loc : Reloc) (st : LState) : LState :=
  let sa := st.seg.symAddrs.getD loc.symOff 0
  let isText := curKind = STEXT
  let addrBase := if isText then st.seg.codeBase else st.seg.dataBase
  let d := pcRelDisp st.seg.symAddrs st.seg.codeBase st.seg.dataBase curKind loc
  if overflowPcRel d then
    if st.seg.offset + 8 > st.seg.maxCodeLen then
      pushErr st ("len overflow sym: " ++ sym.name)
    else
      let rb0 := relocByteGet st isText (loc.offset - 2)
      let rb1 := relocByteGet st isText (loc.offset - 1)
      if loc.typ = R_CALL then
        let d2 := (st.seg.codeBase + st.seg.offset) - (addrBase + loc.offset + loc.size)
        let st1 := emitCodeByte st st.seg.offset x86code
        let st2 := setRelocByte st1 isText loc.offset (natBytes (uint32of d2) 4)
        let st3 :=
          if uint64of (sa + loc.add) > 0xFFFFFFFF then
            emitCodeByte st2 (st.seg.offset + 6) (natBytes (uint64of (sa + loc.add)) 8)
          else
            emitCodeByte st2 (st.seg.offset + 6) (natBytes (uint32of (sa + loc.add)) 4)
        bumpOffset st3 x86code.length
      else if rb0 = leacode ∨ rb0 = movcode ∨ rb0 = cmplcode ∨ rb1 = jmpcode then
        let d2 := (st.seg.codeBase + st.seg.offset) - (addrBase + loc.offset + loc.size)
        let st1 := setRelocByte st isText loc.offset (natBytes (uint32of d2) 4)
        let st2 := if rb0 = leacode then setRelocByte st1 isText (loc.offset - 2) [movcode]
          else st1
        if uint64of (sa + loc.add) > 0xFFFFFFFF then
          bumpOffset (emitCodeByte st2 st.seg.offset (natBytes (uint64of (sa + loc.add)) 8)) 12
        else
          bumpOffset (emitCodeByte st2 st.seg.offset (natBytes (uint32of (sa + loc.add)) 4)) 8
      else
        setRelocByte (pushErr st ("offset overflow sym: " ++ sym.name)) isText
          loc.offset (natBytes (uint32of d) 4)
  else
    setRelocByte st isText loc.offset (natBytes (uint32of d) 4)

/-- The R_CALLARM / R_CALLARM64 case of relocate: encode the 24-bit
word displacement directly when in range, otherwise align the bump
offset, emit the arm or arm64 jump stub with its absolute-address
literal, and point the branch at it. -/
def relocCallArm (sym : SymData) (loc : Reloc) (st : LState) : LState :=
  let sa := st.seg.symAddrs.getD loc.symOff 0
  let d := armDisp st.seg.symAddrs st.seg.codeBase loc
  if overflowArm d then
    if st.seg.offset + 4 > st.seg.maxCodeLen then
      pushErr st ("len overflow sym: " ++ sym.name)
    else
      let alignedOff := if st.seg.offset % 4 ≠ 0 then
          st.seg.offset + (4 - st.seg.offset % 4) else st.seg.offset
      let st1 := { st with seg := { st.seg with offset := alignedOff } }
      let d2 := Int.tdiv ((alignedOff : Int) - (loc.offset + armPcOff loc)) 4
      let v := uint32of d2
      let st2 := setRelocByte st1 true loc.offset [v % 256, (v >>> 8) % 256, (v >>> 16) % 256]
      if loc.typ = R_CALLARM64 then
        let st3 := emitCodeByte st2 alignedOff arm64code
        let st4 := emitCodeByte st3 (alignedOff + 8)
          (natBytes (uint64of (sa + armAdd loc * 4)) PtrSize)
        bumpOffset st4 arm64code.length
      else
        let st3 := emitCodeByte st2 alignedOff armcode
        let st4 := emitCodeByte st3 (alignedOff + 4)
          (natBytes (uint64of (sa + armAdd loc * 4)) PtrSize)
        bumpOffset st4 armcode.length
  else
    let v := uint32of d
    setRelocByte st true loc.offset [v % 256, (v >>> 8) % 256, (v >>> 16) % 256]

/-- One iteration of relocate's inner loop: the -1 skip, the deferred
go.itab queueing, then the switch on the relocation type. -/
def relocateOne (syms : List SymData) (symPtr : List (String × Int))
    (curKind : Nat) (loc : Reloc) (st : LState) : LState :=
  let sym := syms.getD loc.symOff {}
  let sa := st.seg.symAddrs.getD loc.symOff 0
  if sa = -1 then st
  else if sa = 0 ∧ sym.name.startsWith "go.itab" then
    { st with cm := { st.cm with itabs := st.cm.itabs ++
        [{ locOff := loc.offset, symOff := mapGetD st.seg.itabMap sym.name 0,
           size := loc.size, locType := loc.typ, add := loc.add }] } }
  else if loc.typ = R_TLS_LE then
    setRelocByte st true loc.offset (natBytes (uint32of (mapGetD symPtr TLSNAME 0)) 4)
  else if loc.typ = R_CALL ∨ loc.typ = R_PCREL then
    relocCallPcRel sym curKind loc st
  else if loc.typ = R_CALLARM ∨ loc.typ = R_CALLARM64 then
    relocCallArm sym loc st
  else if loc.typ = R_ADDRARM64 then
    let st1 := if curKind ≠ STEXT then pushErr st "not in code?" else st
    { st1 with codeB := relocADRPblob st1.codeB loc.offset (st.seg.codeBase + loc.offset) sa }
  else if loc.typ = R_ADDR then
    let isText := curKind = STEXT
    setRelocByte st isText loc.offset (natBytes (uint64of (sa + loc.add)) PtrSize)
  else if loc.typ = R_CALLIND then
    st
  else if loc.typ = R_ADDROFF ∨ loc.typ = R_WEAKADDROFF ∨ loc.typ = R_METHODOFF then
    let st1 := if curKind = STEXT then
        pushErr st ("impossible! " ++ sym.name ++ " locate on code segment") else st
    setRelocByte st1 false loc.offset (natBytes (uint32of (sa - st.seg.codeBase + loc.add)) 4)
  else
    pushErr st ("unknown reloc type: " ++ toString loc.typ ++ " " ++ sym.name)

/-- relocate's inner loop over one symbol's relocations. -/
def relocInner (syms : List SymData) (symPtr : List (String × Int))
    (curKind : Nat) (locs : List Reloc) (st : LState) : LState :=
  locs.foldl (fun s l => relocateOne syms symPtr curKind l s) st

/-- relocate from the source: patch every relocation site of every
interned symbol. -/
def relocate (code : CodeReloc) (symPtr : List (String × Int)) (st : LState) : LState :=
  code.syms.foldl (fun s cs => relocInner code.syms symPtr cs.kind cs.reloc s) st

/-! ### buildModule (the function metadata builder) -/

/-- The sentinel-shifting loop of buildModule
(`for i := len(ftab)-1; i > 0; i-- { ftab[i] = ftab[i-1] }`),
as index-wise updates processed from i down to 1. -/
def ftabShift (l : List Functab) : Nat → List Functab
  | 0 => l
  | i + 1 => ftabShift (l.set (i + 1) (l.getD i {})) i

/-- The function-table construction of buildModule: translate each
recorded entry through the resolved address array (the first line of
addFuncTab), append a zero entry, shift everything right by one,
append another zero entry, and pin the two boundary entries to minpc
and maxpc. -/
def buildFtab (modFtab : List Nat) (symAddrs : List Int) (minpc maxpc : Int) :
    List Functab :=
  let f0 := modFtab.map fun idx => ({ entry := symAddrs.getD idx 0 } : Functab)
  let f1 := f0 ++ [({} : Functab)]
  let f2 := ftabShift f1 (f1.length - 1)
  let f3 := f2 ++ [({} : Functab)]
  let f4 := f3.set 0 { f3.getD 0 {} with entry := minpc }
  f4.set (f4.length - 1) { f4.getD (f4.length - 1) {} with entry := maxpc }

/-- buildModule from the source, restricted to the fields the claims
reach: minpc is the address of seg.codeByte[0] (the code base), maxpc
is the address of seg.codeByte[len(code.Code)-1] plus 2, the function
table is built by buildFtab, the module is published (the registry
append itself is modelled by addModuleList below), and the code and
data blobs are copied into the mapped region. -/
def buildModule (code : CodeReloc) (st : LState) : LState :=
  let minpc := st.seg.codeBase
  let maxpc := st.seg.codeBase + ((code.code.length : Int) - 1) + 2
  let ftab := buildFtab code.mod.ftab st.seg.symAddrs minpc maxpc
  let st1 := { st with cm := { st.cm with
      modul := some { ftab := ftab, minpc := minpc, maxpc := maxpc } } }
  let st2 := emitCodeByte st1 0 st1.codeB
  let st3 := emitCodeByte st2 st1.codeB.length st1.dataB
  { st3 with cm := { st3.cm with codeByte := st3.seg.codeByte } }

/-! ### relocateItab -/

/-- One deferred itab patch of relocateItab's second loop. -/
def relocateItabOne (st : LState) (it : ItabR) : LState :=
  let symAddr := (st.cm.itabSyms.getD it.symOff ({} : ItabS)).ptr
  if symAddr = 0 then st
  else if it.locType = R_PCREL then
    let pc := st.seg.codeBase + it.locOff + it.size
    let d := symAddr - pc + it.add
    if d > 0x7FFFFFFF ∨ d < -0x80000000 then
      let d2 := (st.seg.codeBase + st.seg.offset) - pc + it.add
      let st1 := emitCodeByte st it.locOff (natBytes (uint32of d2) 4)
      let st2 := emitCodeByte st1 (it.locOff - 2) [movcode]
      let st3 := emitCodeByte st2 st.seg.offset (natBytes (uint64of symAddr) PtrSize)
      bumpOffset st3 PtrSize
    else
      emitCodeByte st it.locOff (natBytes (uint32of d) 4)
  else if it.locType = R_ADDRARM64 then
    let w := relocADRPwords (readLE32 st.seg.codeByte it.locOff)
      (readLE32 st.seg.codeByte (it.locOff + 4)) (st.seg.codeBase + it.locOff) symAddr
    emitCodeByte st it.locOff (natBytes w.fst 4 ++ natBytes w.snd 4)
  else st

/-- relocateItab from the source: fill every itabSym's dispatch-table
pointer through the host's getitab capability (passed as a function),
then patch every deferred site, spilling far R_PCREL targets into the
trampoline area. -/
def relocateItab (getitab : Int → Int → Int) (st : LState) : LState :=
  let fill : ItabS → ItabS := fun s => { s with ptr := getitab s.inter s.typ }
  let st0 := { st with cm := { st.cm with itabSyms := st.cm.itabSyms.map fill } }
  st0.cm.itabs.foldl relocateItabOne st0

/-! ### Load -/

/-- The error Load returns: the allocation error forwarded from Mmap,
or errors.New of the accumulated diagnostic report. -/
inductive LoadErr where
  | alloc : LoadErr
  | report : List String → LoadErr
deriving DecidableEq, Repr

/-- The segment setup and the five pipeline phases of Load, after a
successful allocation at `base`.  Mirrors the source order:
addSymAddrs, addItab, relocate, buildModule, relocateItab. -/
def loadBody (code : CodeReloc) (symPtr : List (String × Int))
    (getitab : Int → Int → Int) (base : Int) : LState :=
  let codeLen := code.code.length + code.data.length
  let seg0 : Seg :=
    { codeBase := base, dataBase := base + code.code.length,
      codeLen := codeLen, maxCodeLen := codeLen * 2, offset := codeLen,
      symAddrs := List.replicate code.syms.length 0,
      codeByte := List.replicate (codeLen * 2) 0 }
  let st0 : LState := { codeB := code.code, dataB := code.data, seg := seg0 }
  relocateItab getitab (buildModule code (relocate code symPtr
    (addItab code (addSymAddrs code symPtr st0))))

/-- Load from the source.  `mmap` is the Memory Allocator collaborator
(§6): given the requested size it returns the base address of an
executable+writable region, or fails.  On allocation failure Load
returns (nil, the allocation error); otherwise it runs the pipeline
and pairs the module with the diagnostic report when one accumulated. -/
def Load (mmap : Nat → Option Int) (getitab : Int → Int → Int)
    (code : CodeReloc) (symPtr : List (String × Int)) :
    Option CModule × Option LoadErr :=
  let codeLen := code.code.length + code.data.length
  let maxCodeLen := codeLen * 2
  match mmap maxCodeLen with
  | none => (none, some LoadErr.alloc)
  | some base =>
    let st := loadBody code symPtr getitab base
    if st.seg.err.length > 0 then (some st.cm, some (LoadErr.report st.seg.err))
    else (some st.cm, none)

/-! ### The module registry (addModule / removeModule) and Unload

The host registry is the runtime's singly linked list of moduledata
nodes starting at firstmoduledata; a node is modelled by an opaque-free
numeric identity and the list by a Lean list whose head is
firstmoduledata's node. -/

/-- addModule's walk: follow next pointers to the node whose next is
nil and hang the new node there. -/
def addModuleList (l : List Nat) (m : Nat) : List Nat :=
  match l with
  | [] => [m]
  | x :: xs => x :: addModuleList xs m

/-- The unlink step of removeModule once prevp has moved past the head:
prevp.next = datap.next for the first matching node. -/
def removeAux (l : List Nat) (m : Nat) : List Nat :=
  match l with
  | [] => []
  | x :: xs => if x = m then xs else x :: removeAux xs m

/-- removeModule's walk: prevp and datap both start at firstmoduledata,
so a match at the head rewrites firstmoduledata.next to itself (a
no-op — the head is the host's own node, never a loaded module); past
the head the matching node is unlinked. -/
def removeModuleList (l : List Nat) (m : Nat) : List Nat :=
  match l with
  | [] => []
  | x :: xs => if x = m then x :: xs else x :: removeAux xs m

/-- The observable events of Unload, in execution order. -/
inductive UEvent where
  | gc : UEvent
  | lockAcq : UEvent
  | unlink : UEvent
  | lockRel : UEvent
  | unmap : UEvent
deriving DecidableEq, Repr, BEq

/-- Process-wide state Unload acts on: the module registry list, the
set of currently mapped module regions, and the event log. -/
structure World where
  registry : List Nat := []
  mapped : List Nat := []
  log : List UEvent := []
deriving DecidableEq, Repr

/-- runtime.GC(): a forced full collection pass. -/
def runtimeGC (w : World) : World := { w with log := w.log ++ [UEvent.gc] }

/-- modulesLock.Lock(). -/
def lockRegistry (w : World) : World := { w with log := w.log ++ [UEvent.lockAcq] }

/-- removeModule(cm.Module) on the world: unlink the node. -/
def removeModuleW (cm : Nat) (w : World) : World :=
  { w with registry := removeModuleList w.registry cm, log := w.log ++ [UEvent.unlink] }

/-- modulesLock.Unlock(). -/
def unlockRegistry (w : World) : World := { w with log := w.log ++ [UEvent.lockRel] }

/-- Munmap(cm.CodeByte): release the module's backing memory. -/
def Munmap (cm : Nat) (w : World) : World :=
  { w with mapped := w.mapped.erase cm, log := w.log ++ [UEvent.unmap] }

/-- Unload from the source, line by line: runtime.GC();
modulesLock.Lock(); removeModule(cm.Module); modulesLock.Unlock();
Munmap(cm.CodeByte). -/
def Unload (cm : Nat) (w : World) : World :=
  Munmap cm (unlockRegistry (removeModuleW cm (lockRegistry (runtimeGC w))))

/-! ### Specification-side definitions used to state the claims -/

/-- The page delta that an adrp instruction word actually expresses:
sign-extend the 21-bit immhi:immlo immediate (immlo at bits 29-30,
immhi at bits 5-23 of the word) and scale by the 4096-byte page size.
This follows the AArch64 instruction description, independent of the
source's field computation, so the two can be compared. -/
def decodeAdrpDelta (w : Nat) : Int :=
  let immlo := (w >>> 29) &&& 3
  let immhi := (w >>> 5) &&& 0x7ffff
  let imm := (immhi <<< 2) ||| immlo
  (if imm ≥ 2 ^ 20 then (imm : Int) - 2 ^ 21 else (imm : Int)) * 4096

/-- A 33-bit signed range, the fallback criterion claim C4 states for
the page delta. -/
def fits33signed (x : Int) : Prop := -(2 ^ 32) ≤ x ∧ x ≤ 2 ^ 32 - 1

instance (x : Int) : Decidable (fits33signed x) := by
  unfold fits33signed; infer_instance

/-- The event order claim C2 states for Unload: the unlink precedes the
forced collection pass, which precedes the unmap. -/
def unlinkThenCollectThenUnmap (log : List UEvent) : Bool :=
  log.contains UEvent.unlink && log.contains UEvent.gc && log.contains UEvent.unmap &&
  Nat.blt (log.indexOf UEvent.unlink) (log.indexOf UEvent.gc) &&
  Nat.blt (log.indexOf UEvent.gc) (log.indexOf UEvent.unmap)

/-- Claim C9's hypothesis on one relocation site: whenever relocate
would actually patch it (its target resolved, not an itab deferral),
the computed displacement fits the direct encoding of its kind. -/
def Fits (syms : List SymData) (symAddrs : List Int) (cb db : Int)
    (curKind : Nat) (loc : Reloc) : Bool :=
  let sym := syms.getD loc.symOff {}
  let sa := symAddrs.getD loc.symOff 0
  if sa = -1 then true
  else if sa = 0 ∧ sym.name.startsWith "go.itab" then true
  else if loc.typ = R_CALL ∨ loc.typ = R_PCREL then
    !overflowPcRel (pcRelDisp symAddrs cb db curKind loc)
  else if loc.typ = R_CALLARM ∨ loc.typ = R_CALLARM64 then
    !overflowArm (armDisp symAddrs cb loc)
  else if loc.typ = R_ADDRARM64 then
    !adrpOverflow (pageOffOf (cb + loc.offset) sa)
  else true

/-! ### Concrete inputs used by the boundary and failing-input theorems -/

/-- One text symbol with a single R_CALL site at offset 4 (size 4,
addend 0) against an externally resolved target. -/
def c1syms : List SymData :=
  [{ name := "f", kind := STEXT, offset := 0,
     reloc := [{ offset := 4, symOff := 1, size := 4, typ := R_CALL, add := 0 }] },
   { name := "g", kind := 0, offset := -1, reloc := [] }]

/-- The single relocation site of c1syms. -/
def c1loc : Reloc := { offset := 4, symOff := 1, size := 4, typ := R_CALL, add := 0 }

/-- Load-shaped state for a 36-byte code blob at base 0x10000000 with
the external target resolved to address A; the R_CALL displacement is
A - 0x10000008. -/
def c1st (A : Int) : LState :=
  { codeB := List.replicate 36 0, dataB := [],
    seg := { codeBase := 0x10000000, dataBase := 0x10000024, codeLen := 36,
             maxCodeLen := 72, offset := 36, symAddrs := [0x10000000, A],
             codeByte := List.replicate 72 0 } }

/-- One text symbol with a single R_CALL site at offset 2 whose target
sits above 2^32, forcing the 14-byte x86 stub with an 8-byte literal. -/
def c10syms : List SymData :=
  [{ name := "f", kind := STEXT, offset := 0,
     reloc := [{ offset := 2, symOff := 1, size := 4, typ := R_CALL, add := 0 }] },
   { name := "g", kind := 0, offset := -1, reloc := [] }]

/-- Load-shaped state for a 10-byte image: the region is 20 bytes, the
bump offset starts at 10, so the pre-stub capacity check 10+8 <= 20
passes while the stub extends to byte 24. -/
def c10st : LState :=
  { codeB := List.replicate 10 0, dataB := [],
    seg := { codeBase := 0x1000, dataBase := 0x100a, codeLen := 10,
             maxCodeLen := 20, offset := 10, symAddrs := [0x1000, 0x200000000],
             codeByte := List.replicate 20 0 } }

/-- A world whose registry holds the host node 0 and one loaded module 7. -/
def w2 : World := { registry := [0, 7], mapped := [7] }

/-- An image holding one synthesized thread-local symbol: renamed to
TLSNAME with the relocation site offset 16 recorded as its offset. -/
def c8code : CodeReloc := { syms := [{ name := TLSNAME, kind := 0, offset := 16 }] }

/-- A load state with the address array freshly zeroed for that image. -/
def c8st : LState := { seg := { codeBase := 1000, dataBase := 2000, symAddrs := [0] } }

/-- A builder state that has already interned the symbol "f" at index 0. -/
def c6st : BState := { reloc := { syms := [{ name := "f" }] }, symMap := [("f", 0)] }

/-- A 4-byte image with one text symbol whose function-table entry
resolves to address 102. -/
def c3code : CodeReloc :=
  { code := List.replicate 4 0, mod := { ftab := [0] },
    syms := [{ name := "f", kind := STEXT }] }

/-- The matching load state: code region based at 100, so one-past-the
end of the code blob is 104. -/
def c3st : LState :=
  { codeB := List.replicate 4 0,
    seg := { codeBase := 100, dataBase := 104, codeLen := 4, maxCodeLen := 8,
             offset := 4, symAddrs := [102], codeByte := List.replicate 8 0 } }

/-- The root-ingestion loop of ReadObj / ReadObjs: starting from the
zero-value CodeReloc, run relocSym on each selected root symbol in
order (the source selects non-DupOK text roots and type-descriptor
read-only-data roots; the model quantifies over any root list). -/
def buildRoots (allSyms : List (String × ObjSym)) (fuel : Nat)
    (roots : List ObjSym) : BState :=
  roots.foldl (fun st r => (relocSym allSyms fuel st r).fst) {}

/-- Well-formedness of the object parser's symbol map, as ReadObj /
ReadObjs construct it (allSyms[sym.Name] = sym): every entry's value
carries the entry's key as its name, and no unit symbol usurps the
reserved names of the synthesized thread-local and indirect-call
records. -/
def symsOK (allSyms : List (String × ObjSym)) : Prop :=
  ∀ p ∈ allSyms, (p.snd : ObjSym).name = p.fst
    ∧ p.fst ≠ TLSNAME ∧ p.fst ≠ R_CALLIND_NAME

/-- The builder invariant relocSym maintains: the interning map is
consistent with the symbol records, and the function table lists
in-bounds text records whose names resolve in the unit map and whose
code-blob offsets are nonnegative, bounded by the code length, and
weakly ascending in table order. -/
structure BInv (allSyms : List (String × ObjSym)) (st : BState) : Prop where
  mapLt : ∀ q ∈ st.symMap, q.snd < st.reloc.syms.length
  mapName : ∀ q ∈ st.symMap, (st.reloc.syms.getD q.snd {}).name = q.fst
  ftabLt : ∀ k ∈ st.reloc.mod.ftab, k < st.reloc.syms.length
  ftabKind : ∀ k ∈ st.reloc.mod.ftab, (st.reloc.syms.getD k {}).kind = STEXT
  ftabName : ∀ k ∈ st.reloc.mod.ftab,
    ∃ x, assocLookup allSyms ((st.reloc.syms.getD k {}).name) = some x
  ftabOff : ∀ k ∈ st.reloc.mod.ftab,
    0 ≤ (st.reloc.syms.getD k {}).offset
    ∧ (st.reloc.syms.getD k {}).offset ≤ (st.reloc.code.length : Int)
  ftabChain : List.Chain'
    (fun a b => (st.reloc.syms.getD a {}).offset ≤ (st.reloc.syms.getD b {}).offset)
    st.reloc.mod.ftab

/-- The builder state relocSym reaches right after interning a fresh
text symbol and before walking its relocations (the composition of its
two addSym calls, the code append and the readFuncData record): the
record joins the symbol list with its offset at the previous end of
the code blob, the code blob grows by the symbol's bytes, the new
index joins the function table and the interning map. -/
def internText (st : BState) (curSym : ObjSym) : BState :=
  { reloc := { code := st.reloc.code ++ curSym.data,
               data := st.reloc.data,
               mod := { ftab := st.reloc.mod.ftab ++ [st.reloc.syms.length] },
               syms := st.reloc.syms ++
                 [{ name := curSym.name, kind := curSym.kind,
                    offset := (st.reloc.code.length : Int), reloc := [] }] },
    symMap := (curSym.name, st.reloc.syms.length) :: st.symMap }

/-- The corresponding state for a non-text symbol: the bytes go to the
data blob and the function table is untouched. -/
def internData (st : BState) (curSym : ObjSym) : BState :=
  { reloc := { code := st.reloc.code,
               data := st.reloc.data ++ curSym.data,
               mod := st.reloc.mod,
               syms := st.reloc.syms ++
                 [{ name := curSym.name, kind := curSym.kind,
                    offset := (st.reloc.data.length : Int), reloc := [] }] },
    symMap := (curSym.name, st.reloc.syms.length) :: st.symMap }

/-- Two text symbols for the C3 witness: "f" calls "g". -/
def c3g : ObjSym := { name := "g", kind := STEXT, data := [5, 6] }

def c3f : ObjSym :=
  { name := "f", kind := STEXT, data := [1, 2, 3, 4],
    reloc := [{ offset := 0, symName := "g", size := 4, typ := R_CALL, add := 0 }] }

/-- The parser map for the C3 witness. -/
def c3all : List (String × ObjSym) := [("f", c3f), ("g", c3g)]

/-! ## Theorems -/

/-- Claim C1 (code bug).  The upper direct-encode boundary of the
R_CALL / R_PCREL case is exactly 0x7fffffff as claimed: displacement
0x7fffffff is written directly (bump offset stays 36) and 0x80000000
takes the trampoline (bump offset grows by the 14-byte stub).  But the
lower boundary is -0x8000000 (-2^27), not the claimed -0x80000000
(-2^31): displacement -0x8000001 lies inside the claimed signed 32-bit
range yet takes the trampoline path.  The relocate overflow test lost
a zero in its lower constant (the identical R_PCREL test in
relocateItab spells -0x80000000). -/
theorem c1_call_boundary_mismatch :
    (relocate { syms := c1syms } [] (c1st (0x10000008 + 0x7fffffff))).seg.offset = 36
  ∧ (relocate { syms := c1syms } [] (c1st (0x10000008 + 0x80000000))).seg.offset = 50
  ∧ (relocate { syms := c1syms } [] (c1st (0x10000008 - 0x8000000))).seg.offset = 36
  ∧ (relocate { syms := c1syms } [] (c1st (0x10000008 - 0x8000001))).seg.offset = 50
  ∧ pcRelDisp (c1st (0x10000008 - 0x8000001)).seg.symAddrs 0x10000000 0x10000024
      STEXT c1loc = -0x8000001
  ∧ (-0x80000000 : Int) ≤ -0x8000001 := by
  decide

/-- Claim C2 counterexample.  Unload does not perform
unlink-then-collect-then-unmap: on a registry holding one loaded
module, the event trace it produces fails that order (the collection
pass comes first). -/
theorem c2_unload_claim_false :
    ¬ unlinkThenCollectThenUnmap (Unload 7 w2).log = true := by
  decide

/-- Claim C2 as amended.  Unload forces the full collection pass
first, then unlinks the module's node from the registry list (between
the lock acquire and release), and only then unmaps the backing
memory: collect-then-unlink-then-unmap. -/
theorem c2_unload_order (cm : Nat) (w : World) :
    (Unload cm w).log = w.log ++
      [UEvent.gc, UEvent.lockAcq, UEvent.unlink, UEvent.lockRel, UEvent.unmap]
  ∧ (Unload cm w).registry = removeModuleList w.registry cm
  ∧ (Unload cm w).mapped = w.mapped.erase cm := by
  refine ⟨?_, rfl, rfl⟩
  simp [Unload, Munmap, unlockRegistry, removeModuleW, lockRegistry, runtimeGC]

/-- Claim C4 (code bug).  relocADRP neither uses the claimed 33-bit
fallback criterion nor splits the page delta exactly: a page delta of
2^31 fits the 33-bit signed range yet triggers the mov fallback (the
test is a 32-bit signed range), and at page delta 0x4000 the patched
adrp word decodes (per the AArch64 immhi:immlo fields) to page delta
0, because the source extracts the high field with a 15-bit shift,
dropping bit 14 of the delta. -/
theorem c4_adrp_split_mismatch :
    decodeAdrpDelta (relocADRPwords 0x90000000 0x91000000 0x400000 0x404000).fst = 0
  ∧ pageOffOf 0x400000 0x404000 = 0x4000
  ∧ (0 : Int) ≠ 0x4000
  ∧ adrpOverflow (2 ^ 31) = true
  ∧ fits33signed (2 ^ 31) := by
  decide

/-- Claim C10 (code bug).  At a 10-byte image the trampoline area is
bytes 10..19 of the 20-byte region; the capacity check 10+8 <= 20
passes, yet the emitted x86 stub covers bytes 10..23 and its 8-byte
address literal bytes 16..23 - both past the end of the allocated
region, so the seg.offset+8 check does not cover the 14-byte stub. -/
theorem c10_tramp_overrun :
    (relocate { syms := c10syms } [] c10st).seg.cbWrites = [(10, 14), (16, 8)]
  ∧ c10st.seg.maxCodeLen = 20
  ∧ c10st.seg.offset + 8 ≤ 20
  ∧ 20 < 10 + 14 := by
  decide

/-- addModule's tail walk appends the new node after the last one. -/
theorem addModuleList_eq_append (l : List Nat) (m : Nat) :
    addModuleList l m = l ++ [m] := by
  induction l with
  | nil => rfl
  | cons x xs ih => simp [addModuleList, ih]

/-- Unlinking a node absent from the prefix removes exactly the
appended occurrence. -/
theorem removeAux_append (l : List Nat) (m : Nat) (h : m ∉ l) :
    removeAux (l ++ [m]) m = l := by
  induction l with
  | nil => simp [removeAux]
  | cons x xs ih =>
    have hx : x ≠ m := fun hxm => h (hxm ▸ List.mem_cons_self x xs)
    have hxs : m ∉ xs := fun hm => h (List.mem_cons_of_mem x hm)
    simp [removeAux, hx, ih hxs]

/-- Claim C7 (confirmed).  On a nonempty registry (the list always
starts at the host's firstmoduledata node, which is never a loaded
module), addModule appends the new node at the tail without touching
the previously published prefix, and removeModule of that same fresh
node restores the exact pre-insert list, so a traversal after removal
never encounters it. -/
theorem c7_registry_append_remove (l : List Nat) (m : Nat)
    (h1 : l ≠ []) (h2 : m ∉ l) :
    addModuleList l m = l ++ [m]
  ∧ removeModuleList (addModuleList l m) m = l
  ∧ m ∉ removeModuleList (addModuleList l m) m := by
  have happ := addModuleList_eq_append l m
  match l, h1 with
  | x :: xs, _ =>
    have hx : x ≠ m := fun hxm => h2 (hxm ▸ List.mem_cons_self x xs)
    have hxs : m ∉ xs := fun hm => h2 (List.mem_cons_of_mem x hm)
    have hrem : removeModuleList (addModuleList (x :: xs) m) m = x :: xs := by
      rw [happ]
      simp [removeModuleList, hx, removeAux_append xs m hxs]
    exact ⟨happ, hrem, fun hmem => h2 (hrem ▸ hmem)⟩

/-- Witness for C7 at a concrete registry. -/
theorem c7_registry_append_remove_witness :
    ([0, 1] : List Nat) ≠ [] ∧ 2 ∉ ([0, 1] : List Nat)
  ∧ (addModuleList [0, 1] 2 = [0, 1] ++ [2]
     ∧ removeModuleList (addModuleList [0, 1] 2) 2 = [0, 1]
     ∧ 2 ∉ removeModuleList (addModuleList [0, 1] 2) 2) :=
  ⟨by decide, by decide,
   c7_registry_append_remove [0, 1] 2 (by decide) (by decide)⟩

/-- Setting an index at or beyond the taken prefix leaves the prefix. -/
theorem take_set_of_le {α : Type} (l : List α) (n k : Nat) (v : α) (h : k ≤ n) :
    (l.set n v).take k = l.take k := by
  apply List.ext_getElem?
  intro i
  simp only [List.getElem?_take, List.getElem?_set, List.length_set]
  split_ifs <;> (first | (simp_all; omega) | simp_all)

/-- The shift loop of buildModule duplicates the head: positions 1..j
receive positions 0..j-1 and the rest is untouched. -/
theorem ftabShift_eq : ∀ (j : Nat) (l : List Functab), j < l.length →
    ftabShift l j = l.take 1 ++ l.take j ++ l.drop (j + 1) := by
  intro j
  induction j with
  | zero =>
    intro l h
    show l = l.take 1 ++ l.take 0 ++ l.drop 1
    rw [List.take_zero, List.append_nil]
    exact (List.take_append_drop 1 l).symm
  | succ j ih =>
    intro l h
    have hlen : j < (l.set (j + 1) (l.getD j {})).length := by
      simpa using Nat.lt_of_succ_lt h
    have hj : j < l.length := Nat.lt_of_succ_lt h
    rw [show ftabShift l (j + 1) = ftabShift (l.set (j + 1) (l.getD j {})) j from rfl]
    rw [ih _ hlen]
    have h1 : (l.set (j + 1) (l.getD j {})).take 1 = l.take 1 :=
      take_set_of_le l (j + 1) 1 _ (by omega)
    have h2 : (l.set (j + 1) (l.getD j {})).take j = l.take j :=
      take_set_of_le l (j + 1) j _ (by omega)
    have h3 : (l.set (j + 1) (l.getD j {})).drop (j + 1) =
        l.getD j {} :: l.drop (j + 2) := by
      rw [List.drop_set]
      simp only [Nat.lt_irrefl, if_neg]
      have hne : l.drop (j + 1) ≠ [] := by
        simp only [ne_eq, List.drop_eq_nil_iff]
        omega
      match hd : l.drop (j + 1), hne with
      | x :: xs, _ =>
        have hdd := List.drop_drop 1 (j + 1) l
        rw [hd] at hdd
        have hxs : l.drop (j + 2) = xs := by
          simpa using hdd.symm
        simp [hxs]
    rw [h1, h2, h3]
    have h4 : l.take (j + 1) = l.take j ++ [l.getD j {}] := by
      rw [List.take_succ]
      congr 1
      have hg : l[j]? = some l[j] := List.getElem?_eq_getElem hj
      simp [hg, List.getD_eq_getElem?_getD]
    rw [h4]
    simp

/-- Setting the final element of an appended singleton replaces it. -/
theorem set_last_append {α : Type} (l1 : List α) (a v : α) :
    (l1 ++ [a]).set l1.length v = l1 ++ [v] := by
  rw [List.set_append]
  simp

-- assoc lookup facts
theorem assocLookup_mem {α : Type} : ∀ (l : List (String × α)) (n : String) (v : α),
    assocLookup l n = some v → (n, v) ∈ l := by
  intro l
  induction l with
  | nil => intro n v h; exact absurd h (by simp [assocLookup])
  | cons p rest ih =>
    intro n v h
    by_cases hp : p.fst = n
    · rw [show p = (p.fst, p.snd) from rfl] at h ⊢
      simp only [assocLookup, if_pos hp] at h
      injection h with hv
      rw [hp, hv]
      exact List.mem_cons_self _ _
    · rw [show p = (p.fst, p.snd) from rfl] at h
      simp only [assocLookup, if_neg hp] at h
      exact List.mem_cons_of_mem _ (ih n v h)

theorem symsOK_lookup {allSyms : List (String × ObjSym)} (hOK : symsOK allSyms)
    {n : String} {s : ObjSym} (h : assocLookup allSyms n = some s) :
    s.name = n ∧ n ≠ TLSNAME ∧ n ≠ R_CALLIND_NAME := by
  have hm := assocLookup_mem allSyms n s h
  have := hOK (n, s) hm
  exact this

theorem symsOK_tls_none {allSyms : List (String × ObjSym)} (hOK : symsOK allSyms) :
    assocLookup allSyms TLSNAME = none := by
  cases h : assocLookup allSyms TLSNAME with
  | none => rfl
  | some s => exact absurd rfl (symsOK_lookup hOK h).2.1

theorem symsOK_callind_none {allSyms : List (String × ObjSym)} (hOK : symsOK allSyms) :
    assocLookup allSyms R_CALLIND_NAME = none := by
  cases h : assocLookup allSyms R_CALLIND_NAME with
  | none => rfl
  | some s => exact absurd rfl (symsOK_lookup hOK h).2.2

-- getD facts
theorem getD_append_left {α : Type} (l1 l2 : List α) (k : Nat) (d : α)
    (h : k < l1.length) : (l1 ++ l2).getD k d = l1.getD k d := by
  simp [List.getD_eq_getElem?_getD, List.getElem?_append_left h]

theorem getD_append_len {α : Type} (l : List α) (a d : α) :
    (l ++ [a]).getD l.length d = a := by
  simp [List.getD_eq_getElem?_getD, List.getElem?_append_right (le_refl l.length)]

theorem getD_set_self {α : Type} (l : List α) (i : Nat) (v d : α) (h : i < l.length) :
    (l.set i v).getD i d = v := by
  simp [List.getD_eq_getElem?_getD, List.getElem?_set, h]

theorem getD_set_ne {α : Type} (l : List α) (i k : Nat) (v d : α) (h : i ≠ k) :
    (l.set i v).getD k d = l.getD k d := by
  simp [List.getD_eq_getElem?_getD, List.getElem?_set, h]

-- chain congruence along membership-equal value maps
theorem chain_getD_congr (f g : Nat → Int) : ∀ (l : List Nat),
    (∀ k ∈ l, f k = g k) →
    List.Chain' (fun a b => f a ≤ f b) l →
    List.Chain' (fun a b => g a ≤ g b) l := by
  intro l
  induction l with
  | nil => intro _ _; exact List.chain'_nil
  | cons a t ih =>
    intro h hc
    cases t with
    | nil => exact List.chain'_singleton a
    | cons b t2 =>
      rw [List.chain'_cons] at hc ⊢
      refine ⟨?_, ih (fun k hk => h k (List.mem_cons_of_mem a hk)) hc.2⟩
      rw [← h a (List.mem_cons_self _ _), ← h b (List.mem_cons_of_mem a (List.mem_cons_self _ _))]
      exact hc.1

-- addSym case equations
theorem addSym_none_eq (st : BState) (r : SymData)
    (h : assocLookup st.symMap r.name = none) :
    addSym st r = ({ st with
        reloc := { st.reloc with syms := st.reloc.syms ++ [r] },
        symMap := (r.name, st.reloc.syms.length) :: st.symMap },
      st.reloc.syms.length) := by
  simp [addSym, h]

theorem addSym_some_eq (st : BState) (r : SymData) (k : Nat)
    (h : assocLookup st.symMap r.name = some k) :
    addSym st r =
      ({ st with reloc := { st.reloc with syms := st.reloc.syms.set k r } }, k) := by
  simp [addSym, h]

-- BInv preserved by an addSym whose record name does not resolve in allSyms
theorem addSym_BInv_noftab {allSyms : List (String × ObjSym)} {st : BState}
    (hInv : BInv allSyms st) (r : SymData)
    (hr : assocLookup allSyms r.name = none) :
    BInv allSyms (addSym st r).fst
  ∧ (addSym st r).fst.reloc.mod.ftab = st.reloc.mod.ftab
  ∧ (addSym st r).fst.reloc.code = st.reloc.code := by
  cases hm : assocLookup st.symMap r.name with
  | none =>
    rw [addSym_none_eq st r hm]
    refine ⟨⟨?_, ?_, ?_, ?_, ?_, ?_, ?_⟩, rfl, rfl⟩
    · intro q hq
      simp only [List.length_append, List.length_cons]
      rcases List.mem_cons.mp hq with h | h
      · subst h; simp
      · have := hInv.mapLt q h; omega
    · intro q hq
      rcases List.mem_cons.mp hq with h | h
      · subst h
        simp [getD_append_len]
      · rw [getD_append_left _ _ _ _ (hInv.mapLt q h)]
        exact hInv.mapName q h
    · intro k hk
      simp only [List.length_append, List.length_cons]
      have := hInv.ftabLt k hk; omega
    · intro k hk
      rw [getD_append_left _ _ _ _ (hInv.ftabLt k hk)]
      exact hInv.ftabKind k hk
    · intro k hk
      rw [getD_append_left _ _ _ _ (hInv.ftabLt k hk)]
      exact hInv.ftabName k hk
    · intro k hk
      rw [getD_append_left _ _ _ _ (hInv.ftabLt k hk)]
      exact hInv.ftabOff k hk
    · refine chain_getD_congr _ _ _ ?_ hInv.ftabChain
      intro k hk
      rw [getD_append_left _ _ _ _ (hInv.ftabLt k hk)]
  | some k =>
    rw [addSym_some_eq st r k hm]
    have hmem := assocLookup_mem st.symMap r.name k hm
    have hklt : k < st.reloc.syms.length := hInv.mapLt (r.name, k) hmem
    have hkname : (st.reloc.syms.getD k {}).name = r.name :=
      hInv.mapName (r.name, k) hmem
    have hknotf : k ∉ st.reloc.mod.ftab := by
      intro hk
      obtain ⟨x, hx⟩ := hInv.ftabName k hk
      rw [hkname, hr] at hx
      exact absurd hx (by simp)
    refine ⟨⟨?_, ?_, ?_, ?_, ?_, ?_, ?_⟩, rfl, rfl⟩
    · intro q hq
      simp only [List.length_set]
      exact hInv.mapLt q hq
    · intro q hq
      by_cases hqk : q.snd = k
      · rw [hqk, getD_set_self _ _ _ _ hklt]
        have := hInv.mapName q hq
        rw [hqk, hkname] at this
        rw [← this]
      · rw [getD_set_ne _ _ _ _ _ (fun he => hqk he.symm)]
        exact hInv.mapName q hq
    · intro j hj
      simp only [List.length_set]
      exact hInv.ftabLt j hj
    · intro j hj
      rw [getD_set_ne _ _ _ _ _ (fun he => hknotf (by rw [he]; exact hj))]
      exact hInv.ftabKind j hj
    · intro j hj
      rw [getD_set_ne _ _ _ _ _ (fun he => hknotf (by rw [he]; exact hj))]
      exact hInv.ftabName j hj
    · intro j hj
      rw [getD_set_ne _ _ _ _ _ (fun he => hknotf (by rw [he]; exact hj))]
      exact hInv.ftabOff j hj
    · refine chain_getD_congr _ _ _ ?_ hInv.ftabChain
      intro j hj
      rw [getD_set_ne _ _ _ _ _ (fun he => hknotf (by rw [he]; exact hj))]

-- BInv ignores the data blob
theorem BInv_data_append {allSyms : List (String × ObjSym)} {st : BState}
    (hInv : BInv allSyms st) (bs : List Nat) :
    BInv allSyms { st with reloc := { st.reloc with data := st.reloc.data ++ bs } } :=
  ⟨hInv.mapLt, hInv.mapName, hInv.ftabLt, hInv.ftabKind, hInv.ftabName,
   hInv.ftabOff, hInv.ftabChain⟩

theorem externSym_BInv {allSyms : List (String × ObjSym)} {st : BState}
    (hOK : symsOK allSyms) (hInv : BInv allSyms st) (re : ObjReloc)
    (hre : assocLookup allSyms re.symName = none) :
    BInv allSyms (externSym st re).fst
  ∧ (externSym st re).fst.reloc.mod.ftab = st.reloc.mod.ftab
  ∧ (externSym st re).fst.reloc.code = st.reloc.code := by
  simp only [externSym]
  split_ifs with h1 h2 h3 <;>
    first
    | exact absurd (h1.symm.trans h2) (by decide)
    | exact addSym_BInv_noftab (BInv_data_append hInv _) _ (symsOK_tls_none hOK)
    | exact addSym_BInv_noftab hInv _ (symsOK_tls_none hOK)
    | exact addSym_BInv_noftab (BInv_data_append hInv _) _ (symsOK_callind_none hOK)
    | exact addSym_BInv_noftab hInv _ (symsOK_callind_none hOK)
    | exact addSym_BInv_noftab (BInv_data_append hInv _) _ hre
    | exact addSym_BInv_noftab hInv _ hre

-- record-field preservation under the reloc-only update of relocSym's last step
theorem getD_set_reloc_fields (l : List SymData) (n k : Nat) (rl : List Reloc) :
    ((l.set n { (l.getD n {}) with reloc := rl }).getD k {}).name = (l.getD k {}).name
  ∧ ((l.set n { (l.getD n {}) with reloc := rl }).getD k {}).kind = (l.getD k {}).kind
  ∧ ((l.set n { (l.getD n {}) with reloc := rl }).getD k {}).offset
      = (l.getD k {}).offset := by
  by_cases hk : n = k
  · subst hk
    by_cases hn : n < l.length
    · rw [getD_set_self _ _ _ _ hn]
      exact ⟨rfl, rfl, rfl⟩
    · rw [List.set_eq_of_length_le (by omega)]
      exact ⟨rfl, rfl, rfl⟩
  · rw [getD_set_ne _ _ _ _ _ hk]
    exact ⟨rfl, rfl, rfl⟩

theorem BInv_set_reloc {allSyms : List (String × ObjSym)} {st : BState}
    (hInv : BInv allSyms st) (n : Nat) (rl : List Reloc) :
    BInv allSyms { st with reloc := { st.reloc with
      syms := st.reloc.syms.set n { (st.reloc.syms.getD n {}) with reloc := rl } } } := by
  refine ⟨?_, ?_, ?_, ?_, ?_, ?_, ?_⟩
  · intro q hq
    simp only [List.length_set]
    exact hInv.mapLt q hq
  · intro q hq
    rw [(getD_set_reloc_fields st.reloc.syms n q.snd rl).1]
    exact hInv.mapName q hq
  · intro k hk
    simp only [List.length_set]
    exact hInv.ftabLt k hk
  · intro k hk
    rw [(getD_set_reloc_fields st.reloc.syms n k rl).2.1]
    exact hInv.ftabKind k hk
  · intro k hk
    rw [(getD_set_reloc_fields st.reloc.syms n k rl).1]
    exact hInv.ftabName k hk
  · intro k hk
    rw [(getD_set_reloc_fields st.reloc.syms n k rl).2.2]
    exact hInv.ftabOff k hk
  · refine chain_getD_congr _ _ _ ?_ hInv.ftabChain
    intro k _
    rw [(getD_set_reloc_fields st.reloc.syms n k rl).2.2]

-- BInv after interning a fresh text symbol
theorem BInv_internText {allSyms : List (String × ObjSym)} {st : BState}
    (hInv : BInv allSyms st) (curSym : ObjSym)
    (hcur : ∃ x, assocLookup allSyms curSym.name = some x)
    (hkind : curSym.kind = STEXT) :
    BInv allSyms (internText st curSym) := by
  refine ⟨?_, ?_, ?_, ?_, ?_, ?_, ?_⟩
  · intro q hq
    simp only [internText, List.length_append, List.length_cons] at hq ⊢
    rcases List.mem_cons.mp hq with h | h
    · subst h; simp
    · have := hInv.mapLt q h; omega
  · intro q hq
    simp only [internText] at hq ⊢
    rcases List.mem_cons.mp hq with h | h
    · subst h
      simp only [getD_append_len]
    · rw [getD_append_left _ _ _ _ (hInv.mapLt q h)]
      exact hInv.mapName q h
  · intro k hk
    simp only [internText, List.length_append, List.length_cons] at hk ⊢
    rcases List.mem_append.mp hk with h | h
    · have := hInv.ftabLt k h; omega
    · simp only [List.mem_singleton] at h; subst h; simp
  · intro k hk
    simp only [internText] at hk ⊢
    rcases List.mem_append.mp hk with h | h
    · rw [getD_append_left _ _ _ _ (hInv.ftabLt k h)]
      exact hInv.ftabKind k h
    · simp only [List.mem_singleton] at h; subst h
      rw [getD_append_len]
      exact hkind
  · intro k hk
    simp only [internText] at hk ⊢
    rcases List.mem_append.mp hk with h | h
    · rw [getD_append_left _ _ _ _ (hInv.ftabLt k h)]
      exact hInv.ftabName k h
    · simp only [List.mem_singleton] at h; subst h
      rw [getD_append_len]
      exact hcur
  · intro k hk
    simp only [internText, List.length_append] at hk ⊢
    rcases List.mem_append.mp hk with h | h
    · rw [getD_append_left _ _ _ _ (hInv.ftabLt k h)]
      have := hInv.ftabOff k h
      refine ⟨this.1, le_trans this.2 ?_⟩
      exact_mod_cast Nat.le_add_right _ _
    · simp only [List.mem_singleton] at h; subst h
      rw [getD_append_len]
      refine ⟨?_, ?_⟩
      · show (0 : Int) ≤ (st.reloc.code.length : Int)
        exact_mod_cast Nat.zero_le _
      · show (st.reloc.code.length : Int) ≤ ((st.reloc.code.length + curSym.data.length : Nat) : Int)
        exact_mod_cast Nat.le_add_right _ _
  · simp only [internText]
    rw [List.chain'_append]
    refine ⟨?_, List.chain'_singleton _, ?_⟩
    · refine chain_getD_congr _ _ _ ?_ hInv.ftabChain
      intro k hk
      rw [getD_append_left _ _ _ _ (hInv.ftabLt k hk)]
    · intro x hx y hy
      simp only [List.head?_cons, Option.mem_def, Option.some.injEq] at hy
      subst hy
      have hxm : x ∈ st.reloc.mod.ftab := List.mem_of_mem_getLast? hx
      rw [getD_append_left _ _ _ _ (hInv.ftabLt x hxm), getD_append_len]
      exact (hInv.ftabOff x hxm).2

-- BInv after interning a fresh non-text symbol
theorem BInv_internData {allSyms : List (String × ObjSym)} {st : BState}
    (hInv : BInv allSyms st) (curSym : ObjSym) :
    BInv allSyms (internData st curSym) := by
  refine ⟨?_, ?_, ?_, ?_, ?_, ?_, ?_⟩
  · intro q hq
    simp only [internData, List.length_append, List.length_cons] at hq ⊢
    rcases List.mem_cons.mp hq with h | h
    · subst h; simp
    · have := hInv.mapLt q h; omega
  · intro q hq
    simp only [internData] at hq ⊢
    rcases List.mem_cons.mp hq with h | h
    · subst h
      simp only [getD_append_len]
    · rw [getD_append_left _ _ _ _ (hInv.mapLt q h)]
      exact hInv.mapName q h
  · intro k hk
    simp only [internData, List.length_append, List.length_cons] at hk ⊢
    have := hInv.ftabLt k hk; omega
  · intro k hk
    simp only [internData] at hk ⊢
    rw [getD_append_left _ _ _ _ (hInv.ftabLt k hk)]
    exact hInv.ftabKind k hk
  · intro k hk
    simp only [internData] at hk ⊢
    rw [getD_append_left _ _ _ _ (hInv.ftabLt k hk)]
    exact hInv.ftabName k hk
  · intro k hk
    simp only [internData] at hk ⊢
    rw [getD_append_left _ _ _ _ (hInv.ftabLt k hk)]
    exact hInv.ftabOff k hk
  · simp only [internData]
    refine chain_getD_congr _ _ _ ?_ hInv.ftabChain
    intro k hk
    rw [getD_append_left _ _ _ _ (hInv.ftabLt k hk)]

-- relocSym body in the fresh-symbol branches, expressed through the intern states
theorem relocSym_none_text_eq (allSyms : List (String × ObjSym)) (f : Nat)
    (st : BState) (curSym : ObjSym)
    (hm : assocLookup st.symMap curSym.name = none)
    (hkind : curSym.kind = STEXT)
    (st4 : BState) (rlist : List Reloc)
    (h4 : relocLoop allSyms f (internText st curSym) st.reloc.code.length curSym.reloc
          = (st4, rlist)) :
    relocSym allSyms (f + 1) st curSym =
      ({ st4 with reloc := { st4.reloc with
          syms := st4.reloc.syms.set st.reloc.syms.length
            { (st4.reloc.syms.getD st.reloc.syms.length {}) with reloc := rlist } } },
       st.reloc.syms.length) := by
  have h4' : relocLoop allSyms f (internText st curSym) st.reloc.code.length curSym.reloc
      = (st4, rlist) := h4
  simp only [internText, hkind] at h4'
  simp [relocSym, hm, hkind, addSym, assocLookup, readFuncData, set_last_append, h4']

theorem relocSym_none_data_eq (allSyms : List (String × ObjSym)) (f : Nat)
    (st : BState) (curSym : ObjSym)
    (hm : assocLookup st.symMap curSym.name = none)
    (hkind : ¬ curSym.kind = STEXT)
    (st4 : BState) (rlist : List Reloc)
    (h4 : relocLoop allSyms f (internData st curSym) st.reloc.data.length curSym.reloc
          = (st4, rlist)) :
    relocSym allSyms (f + 1) st curSym =
      ({ st4 with reloc := { st4.reloc with
          syms := st4.reloc.syms.set st.reloc.syms.length
            { (st4.reloc.syms.getD st.reloc.syms.length {}) with reloc := rlist } } },
       st.reloc.syms.length) := by
  have h4' : relocLoop allSyms f (internData st curSym) st.reloc.data.length curSym.reloc
      = (st4, rlist) := h4
  simp only [internData] at h4'
  simp [relocSym, hm, hkind, addSym, assocLookup, set_last_append, h4']

-- fuel-0 cases return the state unchanged
theorem relocSym_zero_fst (allSyms : List (String × ObjSym)) (st : BState)
    (curSym : ObjSym) : (relocSym allSyms 0 st curSym).fst = st := by
  cases hm : assocLookup st.symMap curSym.name <;> simp [relocSym, hm]

theorem relocLoop_zero_fst (allSyms : List (String × ObjSym)) (st : BState)
    (rsymOffset : Nat) (res : List ObjReloc) :
    (relocLoop allSyms 0 st rsymOffset res).fst = st := by
  cases res <;> simp [relocLoop]

-- the builder invariant is preserved by the whole interning recursion
theorem relocBInv (allSyms : List (String × ObjSym)) (hOK : symsOK allSyms) :
    ∀ fuel : Nat,
    (∀ st curSym, BInv allSyms st →
       (∃ x, assocLookup allSyms curSym.name = some x) →
       BInv allSyms (relocSym allSyms fuel st curSym).fst)
  ∧ (∀ st rsymOffset res, BInv allSyms st →
       BInv allSyms (relocLoop allSyms fuel st rsymOffset res).fst) := by
  intro fuel
  induction fuel with
  | zero =>
    constructor
    · intro st curSym hInv _
      rw [relocSym_zero_fst]
      exact hInv
    · intro st rsymOffset res hInv
      rw [relocLoop_zero_fst]
      exact hInv
  | succ f ih =>
    constructor
    · intro st curSym hInv hcur
      cases hm : assocLookup st.symMap curSym.name with
      | some k =>
        have : (relocSym allSyms (f + 1) st curSym).fst = st := by
          simp [relocSym, hm]
        rw [this]
        exact hInv
      | none =>
        by_cases hkind : curSym.kind = STEXT
        · rcases h4 : relocLoop allSyms f (internText st curSym)
              st.reloc.code.length curSym.reloc with ⟨st4, rlist⟩
          rw [relocSym_none_text_eq allSyms f st curSym hm hkind st4 rlist h4]
          have hInv4 := ih.2 (internText st curSym) st.reloc.code.length curSym.reloc
            (BInv_internText hInv curSym hcur hkind)
          rw [h4] at hInv4
          exact BInv_set_reloc hInv4 _ _
        · rcases h4 : relocLoop allSyms f (internData st curSym)
              st.reloc.data.length curSym.reloc with ⟨st4, rlist⟩
          rw [relocSym_none_data_eq allSyms f st curSym hm hkind st4 rlist h4]
          have hInv4 := ih.2 (internData st curSym) st.reloc.data.length curSym.reloc
            (BInv_internData hInv curSym)
          rw [h4] at hInv4
          exact BInv_set_reloc hInv4 _ _
    · intro st rsymOffset res hInv
      cases res with
      | nil =>
        have : (relocLoop allSyms (f + 1) st rsymOffset []).fst = st := by
          simp [relocLoop]
        rw [this]
        exact hInv
      | cons re rest =>
        cases hs : assocLookup allSyms re.symName with
        | some s =>
          have hname := (symsOK_lookup hOK hs).1
          have hInv1 := ih.1 st s hInv ⟨s, by rw [hname]; exact hs⟩
          have hInv2 := ih.2 (relocSym allSyms f st s).fst rsymOffset rest hInv1
          rcases h1 : relocSym allSyms f st s with ⟨st1, off⟩
          rcases h2 : relocLoop allSyms f st1 rsymOffset rest with ⟨st2, rl⟩
          have : (relocLoop allSyms (f + 1) st rsymOffset (re :: rest)).fst = st2 := by
            simp [relocLoop, hs, h1, h2]
          rw [this]
          rw [h1, h2] at hInv2
          exact hInv2
        | none =>
          have hInv1 := (externSym_BInv hOK hInv re hs).1
          have hInv2 := ih.2 (externSym st re).fst rsymOffset rest hInv1
          rcases h1 : externSym st re with ⟨st1, off⟩
          rcases h2 : relocLoop allSyms f st1 rsymOffset rest with ⟨st2, rl⟩
          have : (relocLoop allSyms (f + 1) st rsymOffset (re :: rest)).fst = st2 := by
            simp [relocLoop, hs, h1, h2]
          rw [this]
          rw [h1, h2] at hInv2
          exact hInv2

-- the empty builder state satisfies the invariant
theorem BInv_empty (allSyms : List (String × ObjSym)) : BInv allSyms ({} : BState) := by
  refine ⟨?_, ?_, ?_, ?_, ?_, ?_, ?_⟩ <;>
    first
      | (intro q hq; exact absurd hq (List.not_mem_nil q))
      | exact List.chain'_nil

-- the root fold keeps the invariant
theorem buildRootsFold_BInv (allSyms : List (String × ObjSym)) (hOK : symsOK allSyms) :
    ∀ (roots : List ObjSym) (fuel : Nat) (st : BState), BInv allSyms st →
    (∀ r ∈ roots, ∃ x, assocLookup allSyms r.name = some x) →
    BInv allSyms (roots.foldl (fun s r => (relocSym allSyms fuel s r).fst) st) := by
  intro roots
  induction roots with
  | nil => intro _ st h _; exact h
  | cons r rest ih =>
    intro fuel st hInv hroots
    show BInv allSyms (rest.foldl _ ((relocSym allSyms fuel st r).fst))
    exact ih fuel _
      ((relocBInv allSyms hOK fuel).1 st r hInv (hroots r (List.mem_cons_self _ _)))
      (fun r' hr' => hroots r' (List.mem_cons_of_mem _ hr'))

theorem buildRoots_BInv (allSyms : List (String × ObjSym)) (fuel : Nat)
    (roots : List ObjSym) (hOK : symsOK allSyms)
    (hroots : ∀ r ∈ roots, ∃ x, assocLookup allSyms r.name = some x) :
    BInv allSyms (buildRoots allSyms fuel roots) :=
  buildRootsFold_BInv allSyms hOK roots fuel {} (BInv_empty allSyms) hroots

/-- The entries of the table buildFtab produces: the minpc sentinel,
then the translated entries in original order, then the maxpc
sentinel. -/
theorem buildFtab_entries (mf : List Nat) (sa : List Int) (mn mx : Int) :
    (buildFtab mf sa mn mx).map Functab.entry =
      mn :: (mf.map fun i => sa.getD i 0) ++ [mx] := by
  unfold buildFtab
  set f0 : List Functab := mf.map fun idx => ({ entry := sa.getD idx 0 } : Functab)
    with hf0
  have hmapent : f0.map Functab.entry = mf.map fun i => sa.getD i 0 := by
    rw [hf0, List.map_map]
    rfl
  rw [← hmapent]
  match f0 with
  | [] =>
    show ((((ftabShift [({} : Functab)] 0 ++ [({} : Functab)]).set 0 _).set _ _).map
      Functab.entry) = _
    simp [ftabShift]
  | e :: es =>
    have hshift : ftabShift ((e :: es) ++ [({} : Functab)])
        (((e :: es) ++ [({} : Functab)]).length - 1) = e :: e :: es := by
      rw [ftabShift_eq _ _ (by simp)]
      have t2 : ((e :: es) ++ [({} : Functab)]).take
          (((e :: es) ++ [({} : Functab)]).length - 1) = e :: es := by
        rw [show ((e :: es) ++ [({} : Functab)]).length - 1 = (e :: es).length by simp]
        exact List.take_left _ _
      have t3 : ((e :: es) ++ [({} : Functab)]).drop
          (((e :: es) ++ [({} : Functab)]).length - 1 + 1) = [] := by
        apply List.drop_eq_nil_of_le
        simp
      rw [t2, t3]
      simp
    simp only [hshift]
    show List.map Functab.entry
      ((((e :: e :: es) ++ [({} : Functab)]).set 0 _).set _ _) = _
    have hset0 : (((e :: e :: es) ++ [({} : Functab)]).set 0
        { entry := mn,
          funcoff := (((e :: e :: es) ++ [({} : Functab)]).getD 0 {}).funcoff }) =
        (({ entry := mn, funcoff := e.funcoff } : Functab) :: e :: es)
          ++ [({} : Functab)] := rfl
    rw [hset0]
    have hlast : ((({ entry := mn, funcoff := e.funcoff } : Functab) :: e :: es)
        ++ [({} : Functab)]).length - 1 =
        (({ entry := mn, funcoff := e.funcoff } : Functab) :: e :: es).length := by
      simp
    rw [hlast]
    have hgd : ((({ entry := mn, funcoff := e.funcoff } : Functab) :: e :: es)
        ++ [({} : Functab)]).getD
        (({ entry := mn, funcoff := e.funcoff } : Functab) :: e :: es).length {} =
        ({} : Functab) := by
      rw [List.getD_eq_getElem?_getD]
      rw [List.getElem?_append_right (by simp)]
      simp
    rw [hgd, set_last_append]
    simp

/-- Claim C3 counterexample.  On a 4-byte code blob based at 100 the
table buildModule publishes is [100, 102, 105]: the trailing sentinel
is 105, not the one-past-the-end 104 = codeBase + len claimed, because
the source computes maxpc as the address of codeByte[len-1] plus 2. -/
theorem c3_last_sentinel_off_by_one :
    ((buildModule c3code c3st).cm.modul.getD {}).ftab.map Functab.entry =
      [100, 102, 105]
  ∧ ¬ ((105 : Int) = 100 + (c3code.code.length : Int)) := by
  decide

theorem addSymAddrsStep_symAddrs_ne (code : CodeReloc) (symPtr : List (String × Int))
    (i : Nat) (s : SymData) (st : LState) (k : Nat) (h : i ≠ k) :
    (addSymAddrsStep code symPtr i s st).seg.symAddrs.getD k 0 =
      st.seg.symAddrs.getD k 0 := by
  unfold addSymAddrsStep
  split_ifs <;>
    (try split) <;>
    simp [setSymAddr, regTLS, pushErr, List.getD_eq_getElem?_getD, List.getElem?_set, h]

theorem addSymAddrsStep_tlsRegs_mono (code : CodeReloc) (symPtr : List (String × Int))
    (i : Nat) (s : SymData) (st : LState) (x : Int) (h : x ∈ st.seg.tlsRegs) :
    x ∈ (addSymAddrsStep code symPtr i s st).seg.tlsRegs := by
  unfold addSymAddrsStep
  split_ifs <;>
    (try split) <;>
    simp_all [setSymAddr, regTLS, pushErr]

theorem addSymAddrsStep_tls (code : CodeReloc) (symPtr : List (String × Int))
    (i : Nat) (s : SymData) (st : LState)
    (h1 : s.name = TLSNAME) (h2 : s.offset ≠ -1) :
    addSymAddrsStep code symPtr i s st = regTLS st s.offset := by
  unfold addSymAddrsStep
  rw [if_neg h2, if_pos h1]

theorem addSymAddrsLoop_preserve_lt : ∀ (l : List SymData) (code : CodeReloc)
    (symPtr : List (String × Int)) (i : Nat) (st : LState) (k : Nat), k < i →
    (addSymAddrsLoop code symPtr l i st).seg.symAddrs.getD k 0 =
      st.seg.symAddrs.getD k 0 := by
  intro l
  induction l with
  | nil => intro _ _ _ _ _ _; rfl
  | cons s rest ih =>
    intro code symPtr i st k hk
    show (addSymAddrsLoop code symPtr rest (i + 1)
      (addSymAddrsStep code symPtr i s st)).seg.symAddrs.getD k 0 = _
    rw [ih code symPtr (i + 1) _ k (by omega)]
    exact addSymAddrsStep_symAddrs_ne code symPtr i s st k (by omega)

theorem addSymAddrsLoop_tlsRegs_mono : ∀ (l : List SymData) (code : CodeReloc)
    (symPtr : List (String × Int)) (i : Nat) (st : LState) (x : Int),
    x ∈ st.seg.tlsRegs →
    x ∈ (addSymAddrsLoop code symPtr l i st).seg.tlsRegs := by
  intro l
  induction l with
  | nil => intro _ _ _ _ _ h; exact h
  | cons s rest ih =>
    intro code symPtr i st x h
    exact ih code symPtr (i + 1) _ x (addSymAddrsStep_tlsRegs_mono code symPtr i s st x h)

theorem addSymAddrsLoop_tls : ∀ (l : List SymData) (code : CodeReloc)
    (symPtr : List (String × Int)) (i : Nat) (st : LState) (j : Nat),
    j < l.length →
    (l.getD j {}).name = TLSNAME →
    (l.getD j {}).offset ≠ -1 →
    (addSymAddrsLoop code symPtr l i st).seg.symAddrs.getD (i + j) 0 =
      st.seg.symAddrs.getD (i + j) 0
    ∧ (l.getD j {}).offset ∈ (addSymAddrsLoop code symPtr l i st).seg.tlsRegs := by
  intro l
  induction l with
  | nil =>
    intro _ _ _ _ j hj
    exact absurd hj (by simp)
  | cons s rest ih =>
    intro code symPtr i st j hj h1 h2
    cases j with
    | zero =>
      simp only [List.getD_cons_zero] at h1 h2 ⊢
      have hs := addSymAddrsStep_tls code symPtr i s st h1 h2
      constructor
      · show (addSymAddrsLoop code symPtr rest (i + 1)
          (addSymAddrsStep code symPtr i s st)).seg.symAddrs.getD (i + 0) 0 = _
        rw [addSymAddrsLoop_preserve_lt rest code symPtr (i + 1) _ (i + 0) (by omega), hs]
        rfl
      · show s.offset ∈ (addSymAddrsLoop code symPtr rest (i + 1)
          (addSymAddrsStep code symPtr i s st)).seg.tlsRegs
        apply addSymAddrsLoop_tlsRegs_mono
        rw [hs]
        simp [regTLS]
    | succ j' =>
      simp only [List.getD_cons_succ] at h1 h2 ⊢
      have hrec := ih code symPtr (i + 1) (addSymAddrsStep code symPtr i s st) j'
        (by simpa using hj) h1 h2
      constructor
      · show (addSymAddrsLoop code symPtr rest (i + 1)
          (addSymAddrsStep code symPtr i s st)).seg.symAddrs.getD (i + (j' + 1)) 0 = _
        rw [show i + (j' + 1) = (i + 1) + j' from by omega]
        rw [hrec.1]
        exact addSymAddrsStep_symAddrs_ne code symPtr i s st ((i + 1) + j') (by omega)
      · exact hrec.2


/-- Claim C8 (confirmed).  A symbol synthesized from a thread-local
relocation (renamed to the well-known TLS name, with the relocation
site offset recorded as its offset, hence offset /= -1) never receives
a codeBase- or dataBase-derived address from the address resolver: its
slot in the resolved-address array stays at its initial zero, and its
offset is routed through the dedicated RegTLS registration path. -/
theorem c8_tls_no_normal_address (code : CodeReloc) (symPtr : List (String × Int)) (st : LState)
    (i : Nat) (hlen : i < code.syms.length)
    (hname : (code.syms.getD i {}).name = TLSNAME)
    (hoff : (code.syms.getD i {}).offset ≠ -1)
    (hinit : st.seg.symAddrs.getD i 0 = 0) :
    (addSymAddrs code symPtr st).seg.symAddrs.getD i 0 = 0
  ∧ (code.syms.getD i {}).offset ∈ (addSymAddrs code symPtr st).seg.tlsRegs := by
  have h := addSymAddrsLoop_tls code.syms code symPtr 0 st i hlen hname hoff
  rw [Nat.zero_add] at h
  exact ⟨h.1.trans hinit, h.2⟩

/-- Witness for C8 at a one-symbol image whose only record is the
synthesized TLS symbol with site offset 16. -/
theorem c8_tls_no_normal_address_witness :
    0 < c8code.syms.length
  ∧ (c8code.syms.getD 0 {}).name = TLSNAME
  ∧ (c8code.syms.getD 0 {}).offset ≠ -1
  ∧ c8st.seg.symAddrs.getD 0 0 = 0
  ∧ ((addSymAddrs c8code [] c8st).seg.symAddrs.getD 0 0 = 0
     ∧ (c8code.syms.getD 0 {}).offset ∈ (addSymAddrs c8code [] c8st).seg.tlsRegs) :=
by
  refine ⟨by decide, by decide, by decide, by decide, ?_⟩
  exact c8_tls_no_normal_address c8code [] c8st 0 (by decide) (by decide) (by decide)
    (by decide)

/-- Claim C6 (confirmed).  relocSym is idempotent on interned names:
if the symbol's name is already in the interning map, it returns the
previously assigned index and the builder state unchanged - no symbol
record is appended and no byte is added to either blob; consequently
the build is a pure function of its input and rebuilding the same
units reproduces identical indices and blob offsets. -/
theorem c6_intern_idempotent (allSyms : List (String × ObjSym)) (fuel : Nat)
    (st : BState) (cur : ObjSym) (off : Nat)
    (h : assocLookup st.symMap cur.name = some off) :
    relocSym allSyms fuel st cur = (st, off) := by
  cases fuel <;> simp [relocSym, h]

/-- Witness for C6: a state that has already interned "f" at index 0. -/
theorem c6_intern_idempotent_witness :
    assocLookup c6st.symMap (ObjSym.name { name := "f" }) = some 0
  ∧ relocSym [] 5 c6st { name := "f" } = (c6st, 0) :=
  ⟨by decide, c6_intern_idempotent [] 5 c6st { name := "f" } 0 (by decide)⟩


theorem setRelocByte_seg (st : LState) (b : Bool) (off : Nat) (bs : List Nat) :
    (setRelocByte st b off bs).seg = st.seg := by
  unfold setRelocByte
  split <;> rfl

theorem relocCallPcRel_static (sym : SymData) (curKind : Nat) (loc : Reloc)
    (st : LState) :
    (relocCallPcRel sym curKind loc st).seg.symAddrs = st.seg.symAddrs
  ∧ (relocCallPcRel sym curKind loc st).seg.codeBase = st.seg.codeBase
  ∧ (relocCallPcRel sym curKind loc st).seg.dataBase = st.seg.dataBase := by
  simp only [relocCallPcRel]
  split_ifs <;>
    (simp only [pushErr, setRelocByte, emitCodeByte, bumpOffset]
     <;> (try split_ifs)
     <;> simp)

theorem relocCallArm_static (sym : SymData) (loc : Reloc) (st : LState) :
    (relocCallArm sym loc st).seg.symAddrs = st.seg.symAddrs
  ∧ (relocCallArm sym loc st).seg.codeBase = st.seg.codeBase
  ∧ (relocCallArm sym loc st).seg.dataBase = st.seg.dataBase := by
  simp only [relocCallArm]
  split_ifs <;>
    (simp only [pushErr, setRelocByte, emitCodeByte, bumpOffset]
     <;> (try split_ifs)
     <;> simp)

set_option maxHeartbeats 1000000 in
theorem relocateOne_static (syms : List SymData) (symPtr : List (String × Int))
    (curKind : Nat) (loc : Reloc) (st : LState) :
    (relocateOne syms symPtr curKind loc st).seg.symAddrs = st.seg.symAddrs
  ∧ (relocateOne syms symPtr curKind loc st).seg.codeBase = st.seg.codeBase
  ∧ (relocateOne syms symPtr curKind loc st).seg.dataBase = st.seg.dataBase := by
  simp only [relocateOne]
  split_ifs <;>
    first
    | exact relocCallPcRel_static _ _ _ _
    | exact relocCallArm_static _ _ _
    | exact ⟨rfl, rfl, rfl⟩
    | simp [setRelocByte_seg, pushErr]

theorem relocCallPcRel_fits (sym : SymData) (curKind : Nat) (loc : Reloc)
    (st : LState)
    (hf : overflowPcRel (pcRelDisp st.seg.symAddrs st.seg.codeBase st.seg.dataBase
      curKind loc) = false) :
    (relocCallPcRel sym curKind loc st).seg.offset = st.seg.offset
  ∧ (relocCallPcRel sym curKind loc st).seg.cbWrites = st.seg.cbWrites := by
  simp only [relocCallPcRel, hf]
  simp [setRelocByte_seg]

theorem relocCallArm_fits (sym : SymData) (loc : Reloc) (st : LState)
    (hf : overflowArm (armDisp st.seg.symAddrs st.seg.codeBase loc) = false) :
    (relocCallArm sym loc st).seg.offset = st.seg.offset
  ∧ (relocCallArm sym loc st).seg.cbWrites = st.seg.cbWrites := by
  simp only [relocCallArm, hf]
  simp [setRelocByte_seg]

set_option maxHeartbeats 1000000 in
theorem relocateOne_fits (syms : List SymData) (symPtr : List (String × Int))
    (curKind : Nat) (loc : Reloc) (st : LState)
    (hfit : Fits syms st.seg.symAddrs st.seg.codeBase st.seg.dataBase curKind loc
      = true) :
    (relocateOne syms symPtr curKind loc st).seg.offset = st.seg.offset
  ∧ (relocateOne syms symPtr curKind loc st).seg.cbWrites = st.seg.cbWrites := by
  simp only [relocateOne]
  split_ifs with h1 h2 h3 h4 h5 h6 h7 h8 h9 h10 h11
  · exact ⟨rfl, rfl⟩
  · exact ⟨rfl, rfl⟩
  · simp [setRelocByte_seg]
  · refine relocCallPcRel_fits _ _ _ _ ?_
    simp only [Fits] at hfit
    rw [if_neg h1, if_neg h2, if_pos h4] at hfit
    simpa using hfit
  · refine relocCallArm_fits _ _ _ ?_
    simp only [Fits] at hfit
    rw [if_neg h1, if_neg h2, if_neg h4, if_pos h5] at hfit
    simpa using hfit
  · exact ⟨rfl, rfl⟩
  · exact ⟨rfl, rfl⟩
  · simp [setRelocByte_seg]
  · exact ⟨rfl, rfl⟩
  · simp [setRelocByte_seg, pushErr]
  · simp [setRelocByte_seg]
  · exact ⟨rfl, rfl⟩

theorem relocInner_fits (syms : List SymData) (symPtr : List (String × Int))
    (curKind : Nat) : ∀ (locs : List Reloc) (st : LState),
    (∀ loc ∈ locs, Fits syms st.seg.symAddrs st.seg.codeBase st.seg.dataBase
      curKind loc = true) →
    (relocInner syms symPtr curKind locs st).seg.symAddrs = st.seg.symAddrs
  ∧ (relocInner syms symPtr curKind locs st).seg.codeBase = st.seg.codeBase
  ∧ (relocInner syms symPtr curKind locs st).seg.dataBase = st.seg.dataBase
  ∧ (relocInner syms symPtr curKind locs st).seg.offset = st.seg.offset
  ∧ (relocInner syms symPtr curKind locs st).seg.cbWrites = st.seg.cbWrites := by
  intro locs
  induction locs with
  | nil => intro st _; exact ⟨rfl, rfl, rfl, rfl, rfl⟩
  | cons l rest ih =>
    intro st h
    have hstat := relocateOne_static syms symPtr curKind l st
    have hone := relocateOne_fits syms symPtr curKind l st
      (h l (List.mem_cons_self l rest))
    have hrest := ih (relocateOne syms symPtr curKind l st) (by
      intro loc hm
      rw [hstat.1, hstat.2.1, hstat.2.2]
      exact h loc (List.mem_cons_of_mem l hm))
    rw [show relocInner syms symPtr curKind (l :: rest) st =
      relocInner syms symPtr curKind rest (relocateOne syms symPtr curKind l st)
      from rfl]
    exact ⟨hrest.1.trans hstat.1, hrest.2.1.trans hstat.2.1,
           hrest.2.2.1.trans hstat.2.2, hrest.2.2.2.1.trans hone.1,
           hrest.2.2.2.2.trans hone.2⟩

theorem relocFold_fits (syms : List SymData) (symPtr : List (String × Int)) :
    ∀ (l : List SymData) (st : LState),
    (∀ s ∈ l, ∀ loc ∈ s.reloc, Fits syms st.seg.symAddrs st.seg.codeBase
      st.seg.dataBase s.kind loc = true) →
    (l.foldl (fun s cs => relocInner syms symPtr cs.kind cs.reloc s) st).seg.symAddrs
      = st.seg.symAddrs
  ∧ (l.foldl (fun s cs => relocInner syms symPtr cs.kind cs.reloc s) st).seg.codeBase
      = st.seg.codeBase
  ∧ (l.foldl (fun s cs => relocInner syms symPtr cs.kind cs.reloc s) st).seg.dataBase
      = st.seg.dataBase
  ∧ (l.foldl (fun s cs => relocInner syms symPtr cs.kind cs.reloc s) st).seg.offset
      = st.seg.offset
  ∧ (l.foldl (fun s cs => relocInner syms symPtr cs.kind cs.reloc s) st).seg.cbWrites
      = st.seg.cbWrites := by
  intro l
  induction l with
  | nil => intro st _; exact ⟨rfl, rfl, rfl, rfl, rfl⟩
  | cons cs rest ih =>
    intro st h
    have hin := relocInner_fits syms symPtr cs.kind cs.reloc st
      (h cs (List.mem_cons_self cs rest))
    have hrest := ih (relocInner syms symPtr cs.kind cs.reloc st) (by
      intro s hm loc hl
      rw [hin.1, hin.2.1, hin.2.2.1]
      exact h s (List.mem_cons_of_mem cs hm) loc hl)
    exact ⟨hrest.1.trans hin.1, hrest.2.1.trans hin.2.1,
           hrest.2.2.1.trans hin.2.2.1, hrest.2.2.2.1.trans hin.2.2.2.1,
           hrest.2.2.2.2.trans hin.2.2.2.2⟩

/-- Claim C9 (confirmed).  If every relocation site that relocate
would patch has a displacement fitting its direct encoding (per the
code's own range tests - see C1/C4 for what those tests are), then
relocate leaves the trampoline bump offset at its initial value (the
combined code+data length) and performs no write into the mapped
region: the recorded write set is unchanged. -/
theorem c9_no_trampoline (code : CodeReloc) (symPtr : List (String × Int)) (st : LState)
    (hfit : ∀ s ∈ code.syms, ∀ loc ∈ s.reloc,
      Fits code.syms st.seg.symAddrs st.seg.codeBase st.seg.dataBase s.kind loc = true)
    (hoff : st.seg.offset = st.seg.codeLen) :
    (relocate code symPtr st).seg.offset = st.seg.codeLen
  ∧ (relocate code symPtr st).seg.cbWrites = st.seg.cbWrites := by
  have h := relocFold_fits code.syms symPtr code.syms st hfit
  exact ⟨h.2.2.2.1.trans hoff, h.2.2.2.2⟩

/-- Witness for C9: the single in-range R_CALL image of c1syms with
the target 100 bytes past the site. -/
theorem c9_no_trampoline_witness :
    (∀ s ∈ ({ syms := c1syms } : CodeReloc).syms, ∀ loc ∈ s.reloc,
      Fits ({ syms := c1syms } : CodeReloc).syms (c1st 0x1000006C).seg.symAddrs
        (c1st 0x1000006C).seg.codeBase (c1st 0x1000006C).seg.dataBase s.kind loc
        = true)
  ∧ (c1st 0x1000006C).seg.offset = (c1st 0x1000006C).seg.codeLen
  ∧ ((relocate { syms := c1syms } [] (c1st 0x1000006C)).seg.offset =
        (c1st 0x1000006C).seg.codeLen
     ∧ (relocate { syms := c1syms } [] (c1st 0x1000006C)).seg.cbWrites =
        (c1st 0x1000006C).seg.cbWrites) :=
  ⟨by decide, by decide,
   c9_no_trampoline { syms := c1syms } [] (c1st 0x1000006C) (by decide) (by decide)⟩


/-- Claim C5 (confirmed).  Load returns a nil module exactly when the
executable-memory allocation fails (in which case the allocation error
is forwarded); on successful allocation it returns a non-nil module,
with nil error exactly when no diagnostic accumulated during the
pipeline, and the textual report otherwise. -/
theorem c5_load_contract (mmap : Nat → Option Int) (getitab : Int → Int → Int)
    (code : CodeReloc) (symPtr : List (String × Int)) :
    ((Load mmap getitab code symPtr).fst = none ↔
      mmap ((code.code.length + code.data.length) * 2) = none)
  ∧ (∀ base, mmap ((code.code.length + code.data.length) * 2) = some base →
      ((Load mmap getitab code symPtr).snd = none ↔
        (loadBody code symPtr getitab base).seg.err = [])) := by
  cases hm : mmap ((code.code.length + code.data.length) * 2) with
  | none =>
    refine ⟨by simp [Load, hm], ?_⟩
    intro base hb
    exact absurd hb.symm (by simp)
  | some base =>
    refine ⟨?_, ?_⟩
    · simp only [Load, hm]
      split_ifs <;> simp
    · intro b hb
      injection hb with hbe
      subst hbe
      simp only [Load, hm]
      split_ifs with h
      · constructor
        · intro hc; exact absurd hc (by simp)
        · intro he; rw [he] at h; simp at h
      · constructor
        · intro _
          have : (loadBody code symPtr getitab base).seg.err.length = 0 := by omega
          exact List.eq_nil_of_length_eq_zero this
        · intro _; rfl

/-- Witness for C5: a successful allocation of an empty image yields a
module with no error, and a failed allocation yields a nil module. -/
theorem c5_load_contract_witness :
    ((Load (fun _ => some 4096) (fun _ _ => 0) ({} : CodeReloc) []).snd = none ↔
      (loadBody ({} : CodeReloc) [] (fun _ _ => 0) 4096).seg.err = [])
  ∧ (Load (fun _ => some 4096) (fun _ _ => 0) ({} : CodeReloc) []).snd = none
  ∧ (Load (fun _ => none) (fun _ _ => 0) ({} : CodeReloc) []).fst = none := by
  have h := (c5_load_contract (fun _ => some 4096) (fun _ _ => 0) {} []).2 4096 rfl
  refine ⟨h, h.mpr (by decide), ?_⟩
  exact ((c5_load_contract (fun _ => none) (fun _ _ => 0) {} []).1).mpr rfl

-- addSymAddrsStep leaves codeBase and the symAddrs length alone
theorem addSymAddrsStep_codeBase (code : CodeReloc) (symPtr : List (String × Int))
    (i : Nat) (s : SymData) (st : LState) :
    (addSymAddrsStep code symPtr i s st).seg.codeBase = st.seg.codeBase := by
  unfold addSymAddrsStep
  split_ifs <;> (try split) <;> simp [setSymAddr, regTLS, pushErr]

theorem addSymAddrsStep_len (code : CodeReloc) (symPtr : List (String × Int))
    (i : Nat) (s : SymData) (st : LState) :
    (addSymAddrsStep code symPtr i s st).seg.symAddrs.length =
      st.seg.symAddrs.length := by
  unfold addSymAddrsStep
  split_ifs <;> (try split) <;> simp [setSymAddr, regTLS, pushErr]

-- the step on a resolvable text symbol publishes codeBase + offset
theorem addSymAddrsStep_stext (code : CodeReloc) (symPtr : List (String × Int))
    (i : Nat) (s : SymData) (st : LState)
    (h1 : ¬ s.offset = -1) (h2 : ¬ s.name = TLSNAME) (h3 : s.kind = STEXT) :
    (addSymAddrsStep code symPtr i s st).seg.symAddrs =
      st.seg.symAddrs.set i ((code.syms.getD i {}).offset + st.seg.codeBase) := by
  unfold addSymAddrsStep
  rw [if_neg h1, if_neg h2, if_pos h3]
  simp [setSymAddr]

theorem addSymAddrsLoop_stext : ∀ (l : List SymData) (code : CodeReloc)
    (symPtr : List (String × Int)) (i : Nat) (st : LState) (j : Nat),
    j < l.length →
    ¬ (l.getD j {}).offset = -1 →
    ¬ (l.getD j {}).name = TLSNAME →
    (l.getD j {}).kind = STEXT →
    i + j < st.seg.symAddrs.length →
    (addSymAddrsLoop code symPtr l i st).seg.symAddrs.getD (i + j) 0 =
      (code.syms.getD (i + j) {}).offset + st.seg.codeBase := by
  intro l
  induction l with
  | nil =>
    intro _ _ _ _ j hj
    exact absurd hj (by simp)
  | cons s rest ih =>
    intro code symPtr i st j hj h1 h2 h3 hlen
    cases j with
    | zero =>
      simp only [List.getD_cons_zero] at h1 h2 h3
      show (addSymAddrsLoop code symPtr rest (i + 1)
        (addSymAddrsStep code symPtr i s st)).seg.symAddrs.getD (i + 0) 0 = _
      rw [show i + 0 = i from rfl]
      rw [addSymAddrsLoop_preserve_lt rest code symPtr (i + 1) _ i (by omega)]
      rw [addSymAddrsStep_stext code symPtr i s st h1 h2 h3]
      exact getD_set_self _ _ _ _ (by omega)
    | succ j' =>
      simp only [List.getD_cons_succ] at h1 h2 h3
      simp only [List.length_cons] at hj
      show (addSymAddrsLoop code symPtr rest (i + 1)
        (addSymAddrsStep code symPtr i s st)).seg.symAddrs.getD (i + (j' + 1)) 0 = _
      rw [show i + (j' + 1) = (i + 1) + j' by omega]
      rw [ih code symPtr (i + 1) _ j' (by omega) h1 h2 h3
        (by rw [addSymAddrsStep_len]; omega)]
      rw [addSymAddrsStep_codeBase]

theorem addSymAddrsLoop_codeBase : ∀ (l : List SymData) (code : CodeReloc)
    (symPtr : List (String × Int)) (i : Nat) (st : LState),
    (addSymAddrsLoop code symPtr l i st).seg.codeBase = st.seg.codeBase := by
  intro l
  induction l with
  | nil => intro _ _ _ _; rfl
  | cons s rest ih =>
    intro code symPtr i st
    show (addSymAddrsLoop code symPtr rest (i + 1)
      (addSymAddrsStep code symPtr i s st)).seg.codeBase = _
    rw [ih, addSymAddrsStep_codeBase]

-- addItab never touches symAddrs or codeBase
theorem addItabStep_static (code : CodeReloc) (entry : String × Nat) (st : LState) :
    (addItabStep code entry st).seg.symAddrs = st.seg.symAddrs
  ∧ (addItabStep code entry st).seg.codeBase = st.seg.codeBase := by
  simp only [addItabStep]
  split_ifs <;> simp

theorem addItabFold_static : ∀ (l : List (String × Nat)) (code : CodeReloc)
    (st : LState),
    (l.foldl (fun s e => addItabStep code e s) st).seg.symAddrs = st.seg.symAddrs
  ∧ (l.foldl (fun s e => addItabStep code e s) st).seg.codeBase = st.seg.codeBase := by
  intro l
  induction l with
  | nil => intro _ _; exact ⟨rfl, rfl⟩
  | cons e rest ih =>
    intro code st
    have h1 := addItabStep_static code e st
    have h2 := ih code (addItabStep code e st)
    exact ⟨h2.1.trans h1.1, h2.2.trans h1.2⟩

theorem addItab_static (code : CodeReloc) (st : LState) :
    (addItab code st).seg.symAddrs = st.seg.symAddrs
  ∧ (addItab code st).seg.codeBase = st.seg.codeBase :=
  addItabFold_static st.seg.itabMap code st

-- relocate never touches symAddrs or codeBase
theorem relocInner_static (syms : List SymData) (symPtr : List (String × Int))
    (curKind : Nat) : ∀ (locs : List Reloc) (st : LState),
    (relocInner syms symPtr curKind locs st).seg.symAddrs = st.seg.symAddrs
  ∧ (relocInner syms symPtr curKind locs st).seg.codeBase = st.seg.codeBase := by
  intro locs
  induction locs with
  | nil => intro _; exact ⟨rfl, rfl⟩
  | cons l rest ih =>
    intro st
    have h1 := relocateOne_static syms symPtr curKind l st
    have h2 := ih (relocateOne syms symPtr curKind l st)
    exact ⟨h2.1.trans h1.1, h2.2.trans h1.2.1⟩

theorem relocFold_static (syms : List SymData) (symPtr : List (String × Int)) :
    ∀ (csl : List SymData) (st : LState),
    (csl.foldl (fun s cs => relocInner syms symPtr cs.kind cs.reloc s) st).seg.symAddrs
      = st.seg.symAddrs
  ∧ (csl.foldl (fun s cs => relocInner syms symPtr cs.kind cs.reloc s) st).seg.codeBase
      = st.seg.codeBase := by
  intro csl
  induction csl with
  | nil => intro _; exact ⟨rfl, rfl⟩
  | cons cs rest ih =>
    intro st
    have h1 := relocInner_static syms symPtr cs.kind cs.reloc st
    have h2 := ih (relocInner syms symPtr cs.kind cs.reloc st)
    exact ⟨h2.1.trans h1.1, h2.2.trans h1.2⟩

theorem relocate_static (code : CodeReloc) (symPtr : List (String × Int))
    (st : LState) :
    (relocate code symPtr st).seg.symAddrs = st.seg.symAddrs
  ∧ (relocate code symPtr st).seg.codeBase = st.seg.codeBase :=
  relocFold_static code.syms symPtr code.syms st

-- relocateItab leaves the published module alone
theorem relocateItabOne_modul (st : LState) (it : ItabR) :
    (relocateItabOne st it).cm.modul = st.cm.modul := by
  simp only [relocateItabOne]
  split_ifs <;> simp [emitCodeByte, bumpOffset]

theorem relocateItabFold_modul : ∀ (l : List ItabR) (st : LState),
    (l.foldl relocateItabOne st).cm.modul = st.cm.modul := by
  intro l
  induction l with
  | nil => intro _; rfl
  | cons it rest ih =>
    intro st
    exact (ih (relocateItabOne st it)).trans (relocateItabOne_modul st it)

theorem relocateItab_modul (getitab : Int → Int → Int) (st : LState) :
    (relocateItab getitab st).cm.modul = st.cm.modul := by
  unfold relocateItab
  rw [relocateItabFold_modul]

-- the module buildModule publishes
theorem buildModule_modul (code : CodeReloc) (st : LState) :
    (buildModule code st).cm.modul =
      some { ftab := buildFtab code.mod.ftab st.seg.symAddrs st.seg.codeBase
               (st.seg.codeBase + ((code.code.length : Int) - 1) + 2),
             minpc := st.seg.codeBase,
             maxpc := st.seg.codeBase + ((code.code.length : Int) - 1) + 2 } := by
  unfold buildModule
  simp [emitCodeByte]

-- a bounded ascending run framed by a low and a high sentinel is ascending
theorem chain_le_cons_append (b t : Int) (l : List Int)
    (h1 : ∀ x ∈ l, b ≤ x) (h2 : ∀ x ∈ l, x ≤ t) (hbt : b ≤ t)
    (hc : List.Chain' (· ≤ ·) l) :
    List.Chain' (· ≤ ·) (b :: l ++ [t]) := by
  rw [show b :: l ++ [t] = (b :: l) ++ [t] from rfl, List.chain'_append]
  refine ⟨List.chain'_cons'.mpr ⟨fun y hy => h1 y (List.mem_of_mem_head? hy), hc⟩,
          List.chain'_singleton t, ?_⟩
  intro x hx y hy
  simp only [List.head?_cons, Option.mem_def, Option.some.injEq] at hy
  subst hy
  rcases List.mem_cons.mp (List.mem_of_mem_getLast? hx) with h | h
  · subst h
    exact hbt
  · exact h2 x h

set_option maxHeartbeats 1000000 in
/-- Claim C3 as amended.  For every image the interning pipeline
produces (relocSym run over roots drawn from an object-symbol map that
keys each symbol by its own name, exactly how ReadObjs builds both),
the function table loadBody publishes begins with a sentinel at
codeBase and ends with a sentinel at codeBase + len(code) + 1 -- one
past the claimed one-past-the-end codeBase + len(code), because the
source computes maxpc as the address of codeByte[len(code)-1] plus 2;
the entries between the sentinels are the recorded text symbols'
translated addresses offset + codeBase in original order, and the
whole table is unconditionally in ascending address order. -/
theorem c3_ftab_sentinels (allSyms : List (String × ObjSym)) (fuel : Nat)
    (roots : List ObjSym) (symPtr : List (String × Int))
    (getitab : Int → Int → Int) (base : Int)
    (hOK : symsOK allSyms)
    (hroots : ∀ r ∈ roots, ∃ x, assocLookup allSyms r.name = some x) :
    ∃ M, (loadBody (buildRoots allSyms fuel roots).reloc symPtr getitab base).cm.modul
        = some M
  ∧ M.ftab.map Functab.entry =
      base :: ((buildRoots allSyms fuel roots).reloc.mod.ftab.map fun k =>
          ((buildRoots allSyms fuel roots).reloc.syms.getD k {}).offset + base)
        ++ [base + ((buildRoots allSyms fuel roots).reloc.code.length : Int) + 1]
  ∧ List.Chain' (· ≤ ·) (M.ftab.map Functab.entry) := by
  have hB := buildRoots_BInv allSyms fuel roots hOK hroots
  obtain ⟨code, hcode⟩ : ∃ c, c = (buildRoots allSyms fuel roots).reloc := ⟨_, rfl⟩
  have hLt : ∀ k ∈ code.mod.ftab, k < code.syms.length := by
    rw [hcode]; exact hB.ftabLt
  have hKind : ∀ k ∈ code.mod.ftab, (code.syms.getD k {}).kind = STEXT := by
    rw [hcode]; exact hB.ftabKind
  have hName : ∀ k ∈ code.mod.ftab,
      ∃ x, assocLookup allSyms ((code.syms.getD k {}).name) = some x := by
    rw [hcode]; exact hB.ftabName
  have hOff : ∀ k ∈ code.mod.ftab, 0 ≤ (code.syms.getD k {}).offset
      ∧ (code.syms.getD k {}).offset ≤ (code.code.length : Int) := by
    rw [hcode]; exact hB.ftabOff
  have hChain : List.Chain'
      (fun a b => (code.syms.getD a {}).offset ≤ (code.syms.getD b {}).offset)
      code.mod.ftab := by
    rw [hcode]; exact hB.ftabChain
  rw [← hcode]
  -- the pipeline states
  simp only [loadBody]
  set st0 : LState :=
    { codeB := code.code, dataB := code.data, seg :=
      { codeBase := base, dataBase := base + code.code.length,
        codeLen := code.code.length + code.data.length,
        maxCodeLen := (code.code.length + code.data.length) * 2,
        offset := code.code.length + code.data.length,
        symAddrs := List.replicate code.syms.length 0,
        codeByte := List.replicate ((code.code.length + code.data.length) * 2) 0 } }
    with hst0
  set stA := addSymAddrs code symPtr st0 with hstA
  set stB := addItab code stA with hstB
  set stC := relocate code symPtr stB with hstC
  -- resolved addresses of the recorded text symbols
  have hA_cb : stA.seg.codeBase = base := by
    rw [hstA]
    show (addSymAddrsLoop code symPtr code.syms 0 st0).seg.codeBase = base
    rw [addSymAddrsLoop_codeBase]
  have hA_addr : ∀ k ∈ code.mod.ftab,
      stA.seg.symAddrs.getD k 0 = (code.syms.getD k {}).offset + base := by
    intro k hk
    have hklt := hLt k hk
    have hoff := hOff k hk
    have hnotls : ¬ (code.syms.getD k {}).name = TLSNAME := by
      intro he
      obtain ⟨x, hx⟩ := hName k hk
      rw [he, symsOK_tls_none hOK] at hx
      exact absurd hx (by simp)
    rw [hstA]
    show (addSymAddrsLoop code symPtr code.syms 0 st0).seg.symAddrs.getD k 0 = _
    have := addSymAddrsLoop_stext code.syms code symPtr 0 st0 k hklt
      (by intro he; rw [he] at hoff; omega) hnotls (hKind k hk)
      (by simpa using hklt)
    simpa using this
  have hC_sa : stC.seg.symAddrs = stA.seg.symAddrs := by
    rw [hstC, hstB]
    rw [(relocate_static code symPtr _).1, (addItab_static code _).1]
  have hC_cb : stC.seg.codeBase = base := by
    rw [hstC, hstB]
    rw [(relocate_static code symPtr _).2, (addItab_static code _).2, hA_cb]
  -- the published module
  rw [relocateItab_modul, buildModule_modul]
  have harith : base + ((code.code.length : Int) - 1) + 2 =
      base + (code.code.length : Int) + 1 := by ring
  refine ⟨_, rfl, ?_, ?_⟩
  · rw [buildFtab_entries, hC_sa, hC_cb, harith, List.map_congr_left hA_addr]
  · rw [buildFtab_entries, hC_sa, hC_cb, harith, List.map_congr_left hA_addr]
    refine chain_le_cons_append _ _ _ ?_ ?_ (by omega) ?_
    · intro x hx
      obtain ⟨k, hk, hkx⟩ := List.mem_map.mp hx
      have := (hOff k hk).1
      omega
    · intro x hx
      obtain ⟨k, hk, hkx⟩ := List.mem_map.mp hx
      have := (hOff k hk).2
      omega
    · rw [List.chain'_map]
      refine List.Chain'.imp ?_ hChain
      intro a b h
      omega

/-- Witness for C3's amended theorem at a concrete two-symbol image
(a 4-byte text symbol calling a 2-byte one, based at 4096): the input
sanity hypotheses hold and the published table -- concretely
[4096, 4096, 4100, 4103] -- carries both sentinels and is ascending. -/
theorem c3_ftab_sentinels_witness :
    (symsOK c3all ∧ ∀ r ∈ [c3f], ∃ x, assocLookup c3all r.name = some x)
  ∧ (∃ M, (loadBody (buildRoots c3all 10 [c3f]).reloc [] (fun _ _ => 0) 4096).cm.modul
        = some M
    ∧ M.ftab.map Functab.entry =
        (4096 : Int) :: ((buildRoots c3all 10 [c3f]).reloc.mod.ftab.map fun k =>
            ((buildRoots c3all 10 [c3f]).reloc.syms.getD k {}).offset + 4096)
          ++ [4096 + ((buildRoots c3all 10 [c3f]).reloc.code.length : Int) + 1]
    ∧ List.Chain' (· ≤ ·) (M.ftab.map Functab.entry)) := by
  have hOK : symsOK c3all := by
    intro p hp
    rcases List.mem_cons.mp hp with h | h
    · subst h
      exact ⟨rfl, by decide, by decide⟩
    rcases List.mem_cons.mp h with h2 | h2
    · subst h2
      exact ⟨rfl, by decide, by decide⟩
    · exact absurd h2 (List.not_mem_nil p)
  have hroots : ∀ r ∈ [c3f], ∃ x, assocLookup c3all r.name = some x := by
    intro r hr
    rcases List.mem_cons.mp hr with h | h
    · subst h
      exact ⟨c3f, rfl⟩
    · exact absurd h (List.not_mem_nil r)
  exact ⟨⟨hOK, hroots⟩,
    c3_ftab_sentinels c3all 10 [c3f] [] (fun _ _ => 0) 4096 hOK hroots⟩

end Goloader
